import Mathlib

/-!
# Verification of the WOLS specimen-label library

A shallow embedding, in Lean 4, of the core of the `@wemush/wols`
TypeScript library: JSON serialization and parsing of specimen records,
the schema validator, the compact-URL codec, and the version-migration
engine.  Definitions are translated from the TypeScript sources
(`src/validator.ts`, `src/parser.ts`, `src/specimen.ts`,
`src/compact-url.ts`, `src/utils/migration.ts`, `src/types.ts`,
`src/utils/iso8601.ts`, `src/errors.ts`).

Modelling conventions:
* JavaScript strings are modelled as Lean `String` (lists of Unicode
  scalar values); lone UTF-16 surrogates are not representable.
* JavaScript numbers are modelled as `Int`: all numeric values that the
  library manipulates in the verified claims are integers.
* Mutable module-level registries (the type-alias table, the migration
  list) are passed as explicit parameters.
* `JSON.parse` / `JSON.stringify` and URL query encoding are modelled by
  executable Lean functions mirroring the ECMA-404 / WHATWG algorithms on
  the fragment of values described above.
-/

set_option maxRecDepth 10000

namespace Wols

/-! ## JSON runtime values -/

/-- JSON values as manipulated at runtime by the library.  Objects are
ordered key/value lists (JavaScript objects preserve insertion order);
numbers are modelled as integers. -/
inductive Json where
  | null : Json
  | bool (b : Bool) : Json
  | num (n : Int) : Json
  | str (s : String) : Json
  | arr (elems : List Json) : Json
  | obj (fields : List (String × Json)) : Json

/-- First-match lookup of a key in a JSON object field list (JavaScript
property access; field lists are duplicate-free by construction). -/
def objGet (fields : List (String × Json)) (k : String) : Option Json :=
  match fields with
  | [] => none
  | (k', v) :: rest => if k' = k then some v else objGet rest k

/-! ## JSON.stringify model -/

/-- Lower-case hexadecimal digit. -/
def hexDigit (n : Nat) : Char :=
  if n < 10 then Char.ofNat (48 + n) else Char.ofNat (87 + n)

/-- The escape sequence (or literal character) that `JSON.stringify`
emits for one character of a string. -/
def escChar (c : Char) : List Char :=
  if c = '"' then ['\\', '"']
  else if c = '\\' then ['\\', '\\']
  else if c = '\x08' then ['\\', 'b']
  else if c = '\x09' then ['\\', 't']
  else if c = '\x0a' then ['\\', 'n']
  else if c = '\x0c' then ['\\', 'f']
  else if c = '\x0d' then ['\\', 'r']
  else if c.toNat < 0x20 then
    ['\\', 'u', '0', '0', hexDigit (c.toNat / 16), hexDigit (c.toNat % 16)]
  else [c]

/-- A JSON string literal: quotes around the escaped characters. -/
def quoteStr (s : String) : List Char :=
  '"' :: (s.data.flatMap escChar) ++ ['"']

/-- Decimal digits of a natural number, most significant first. -/
def natChars (n : Nat) : List Char :=
  if h : n < 10 then [Char.ofNat (48 + n)]
  else natChars (n / 10) ++ [Char.ofNat (48 + n % 10)]
decreasing_by exact Nat.div_lt_self (by omega) (by omega)

/-- Decimal rendering of an integer as `JSON.stringify` prints it. -/
def intChars (i : Int) : List Char :=
  if i < 0 then '-' :: natChars (-i).toNat else natChars i.toNat

mutual

/-- `JSON.stringify` (compact form, no indent) on a JSON value. -/
def jStr : Json → List Char
  | .null => "null".data
  | .bool true => "true".data
  | .bool false => "false".data
  | .num n => intChars n
  | .str s => quoteStr s
  | .arr xs => '[' :: jStrElems xs ++ [']']
  | .obj fs => '\x7b' :: jStrMembers fs ++ ['\x7d']

/-- Comma-separated serialization of array elements. -/
def jStrElems : List Json → List Char
  | [] => []
  | [x] => jStr x
  | x :: y :: xs => jStr x ++ ',' :: jStrElems (y :: xs)

/-- Comma-separated serialization of object members. -/
def jStrMembers : List (String × Json) → List Char
  | [] => []
  | [(k, v)] => quoteStr k ++ ':' :: jStr v
  | (k, v) :: m :: ms => quoteStr k ++ ':' :: jStr v ++ ',' :: jStrMembers (m :: ms)

end

/-- The string produced by `JSON.stringify`. -/
def jsonStringify (v : Json) : String := ⟨jStr v⟩

/-! ## JSON.parse model

A fuel-indexed recursive-descent parser for the JSON grammar (ECMA-404),
restricted to integer numeric literals (the only numbers the verified
claims involve).  `jsonParse` supplies more fuel than any input can
consume, so the fuel never runs out on strings produced by
`jsonStringify`. -/

/-- ASCII decimal digit test (the `\d` class of JavaScript regexes). -/
def isDig (c : Char) : Bool := 48 ≤ c.toNat && c.toNat ≤ 57

/-- JSON insignificant whitespace. -/
def isJsonWs (c : Char) : Bool :=
  c = ' ' || c = '\x09' || c = '\x0a' || c = '\x0d'

/-- Skip leading JSON whitespace. -/
def skipWs : List Char → List Char
  | [] => []
  | c :: rest => if isJsonWs c then skipWs rest else c :: rest

/-- Numeric value of a hexadecimal digit, if it is one. -/
def hexVal (c : Char) : Option Nat :=
  if '0' ≤ c ∧ c ≤ '9' then some (c.toNat - 48)
  else if 'a' ≤ c ∧ c ≤ 'f' then some (c.toNat - 87)
  else if 'A' ≤ c ∧ c ≤ 'F' then some (c.toNat - 55)
  else none

/-- Expect the given literal characters at the front of the input and
return what follows. -/
def expectChars : List Char → List Char → Option (List Char)
  | [], l => some l
  | p :: ps, c :: l => if c = p then expectChars ps l else none
  | _ :: _, [] => none

/-- Value of four hexadecimal digits (the `XXXX` of a `\uXXXX` escape). -/
def hex4 (a b c d : Char) : Option Nat :=
  match hexVal a, hexVal b, hexVal c, hexVal d with
  | some ha, some hb, some hc, some hd => some (4096 * ha + 256 * hb + 16 * hc + hd)
  | _, _, _, _ => none

/-- Decode one `\uXXXX` escape, given the input after the `u`: yields the
decoded character (a surrogate pair is combined with its continuation, a
lone surrogate is rejected, having no Lean `Char` representation) and the
remaining input. -/
def decodeU : List Char → Option (Char × List Char)
  | a :: b :: c :: d :: rest2 =>
    (match hex4 a b c d with
     | none => none
     | some n =>
       if 0xD800 ≤ n ∧ n ≤ 0xDBFF then
         match rest2 with
         | '\\' :: 'u' :: a2 :: b2 :: c2 :: d2 :: rest3 =>
           (match hex4 a2 b2 c2 d2 with
            | none => none
            | some m =>
              if 0xDC00 ≤ m ∧ m ≤ 0xDFFF then
                some (Char.ofNat (0x10000 + (n - 0xD800) * 0x400 + (m - 0xDC00)), rest3)
              else none)
         | _ => none
       else if 0xDC00 ≤ n ∧ n ≤ 0xDFFF then none
       else some (Char.ofNat n, rest2))
  | _ => none

/-- Parse the body of a JSON string literal (after the opening quote),
returning the decoded characters and the input after the closing quote.
The fuel decreases at every decoded character, so the input length always
suffices (each decoded character consumes at least one input
character). -/
def parseStrBody : Nat → List Char → Option (List Char × List Char)
  | 0, _ => none
  | fuel + 1, l =>
    match l with
    | [] => none
    | c :: rest =>
      if c = '"' then some ([], rest)
      else if c = '\\' then
        match rest with
        | [] => none
        | e :: rest1 =>
          if e = '"' then (parseStrBody fuel rest1).map (fun p => ('"' :: p.1, p.2))
          else if e = '\\' then (parseStrBody fuel rest1).map (fun p => ('\\' :: p.1, p.2))
          else if e = '/' then (parseStrBody fuel rest1).map (fun p => ('/' :: p.1, p.2))
          else if e = 'b' then (parseStrBody fuel rest1).map (fun p => ('\x08' :: p.1, p.2))
          else if e = 'f' then (parseStrBody fuel rest1).map (fun p => ('\x0c' :: p.1, p.2))
          else if e = 'n' then (parseStrBody fuel rest1).map (fun p => ('\x0a' :: p.1, p.2))
          else if e = 'r' then (parseStrBody fuel rest1).map (fun p => ('\x0d' :: p.1, p.2))
          else if e = 't' then (parseStrBody fuel rest1).map (fun p => ('\x09' :: p.1, p.2))
          else if e = 'u' then
            (decodeU rest1).bind
              (fun q => (parseStrBody fuel q.2).map (fun p => (q.1 :: p.1, p.2)))
          else none
      else if c.toNat < 0x20 then none
      else (parseStrBody fuel rest).map (fun p => (c :: p.1, p.2))

/-- Take the maximal run of decimal digits from the front of the input. -/
def takeDigits : List Char → List Char × List Char
  | [] => ([], [])
  | c :: rest =>
    if isDig c then
      let p := takeDigits rest
      (c :: p.1, p.2)
    else ([], c :: rest)

/-- Value of a list of decimal digits, most significant first. -/
def digitsToNat (ds : List Char) : Nat :=
  ds.foldl (fun a c => 10 * a + (c.toNat - 48)) 0

/-- Parse an unsigned JSON integer literal (no leading zeros, and no
fraction or exponent must not follow (non-integer numbers are outside
this model). -/
def numTermOk (rest : List Char) : Bool :=
  match rest.head? with
  | none => true
  | some c => !(c = '.' || c = 'e' || c = 'E')

/-- Parse an unsigned JSON integer literal (no leading zeros, and no
fraction or exponent: non-integer numbers are outside this model). -/
def parseNumNat (l : List Char) : Option (Nat × List Char) :=
  if (takeDigits l).1 = [] then none
  else if 1 < (takeDigits l).1.length ∧ (takeDigits l).1.head? = some '0' then none
  else if numTermOk (takeDigits l).2 then some (digitsToNat (takeDigits l).1, (takeDigits l).2)
  else none

/-- Parse a JSON integer literal with optional minus sign. -/
def parseNum (l : List Char) : Option (Int × List Char) :=
  match l with
  | '-' :: rest => (parseNumNat rest).map (fun p => (-(p.1 : Int), p.2))
  | _ => (parseNumNat l).map (fun p => ((p.1 : Int), p.2))

/-- JavaScript object update: replace the value of an existing key in
place, otherwise append the new member (insertion order is preserved). -/
def objInsert (fs : List (String × Json)) (k : String) (v : Json) : List (String × Json) :=
  if fs.any (fun p => p.1 = k) then
    fs.map (fun p => if p.1 = k then (k, v) else p)
  else fs ++ [(k, v)]

mutual

/-- Parse one JSON value, skipping leading whitespace. -/
def parseVal : Nat → List Char → Option (Json × List Char)
  | 0, _ => none
  | fuel + 1, input =>
    match skipWs input with
    | [] => none
    | c :: rest =>
      if c = 'n' then (expectChars ['u', 'l', 'l'] rest).map (fun r => (.null, r))
      else if c = 't' then (expectChars ['r', 'u', 'e'] rest).map (fun r => (.bool true, r))
      else if c = 'f' then (expectChars ['a', 'l', 's', 'e'] rest).map (fun r => (.bool false, r))
      else if c = '"' then
        (parseStrBody (rest.length + 1) rest).map (fun p => (.str ⟨p.1⟩, p.2))
      else if c = '[' then
        let r := skipWs rest
        if r.head? = some ']' then some (.arr [], r.tail)
        else parseElems fuel [] r
      else if c = '\x7b' then
        let r := skipWs rest
        if r.head? = some '\x7d' then some (.obj [], r.tail)
        else parseMembers fuel [] r
      else if c = '-' ∨ isDig c then (parseNum (c :: rest)).map (fun p => (.num p.1, p.2))
      else none

/-- Parse the remaining elements of a non-empty JSON array. -/
def parseElems : Nat → List Json → List Char → Option (Json × List Char)
  | 0, _, _ => none
  | fuel + 1, acc, input =>
    match parseVal fuel input with
    | none => none
    | some (v, rest) =>
      match skipWs rest with
      | [] => none
      | c :: r =>
        if c = ',' then parseElems fuel (acc ++ [v]) r
        else if c = ']' then some (.arr (acc ++ [v]), r)
        else none

/-- Parse the remaining members of a non-empty JSON object. -/
def parseMembers : Nat → List (String × Json) → List Char → Option (Json × List Char)
  | 0, _, _ => none
  | fuel + 1, acc, input =>
    match skipWs input with
    | [] => none
    | c :: rest =>
      if c = '"' then
        match parseStrBody (rest.length + 1) rest with
        | none => none
        | some (kcs, rest1) =>
          match skipWs rest1 with
          | [] => none
          | c1 :: rest2 =>
            if c1 = ':' then
              match parseVal fuel rest2 with
              | none => none
              | some (v, rest3) =>
                let acc' := objInsert acc ⟨kcs⟩ v
                match skipWs rest3 with
                | [] => none
                | c2 :: r =>
                  if c2 = ',' then parseMembers fuel acc' r
                  else if c2 = '\x7d' then some (.obj acc', r)
                  else none
            else none
      else none

end

/-- `JSON.parse`: parse a whole string as one JSON value with nothing but
whitespace after it. -/
def jsonParse (s : String) : Option Json :=
  match parseVal (s.data.length + 1) s.data with
  | some (v, rest) => if skipWs rest = [] then some v else none
  | none => none

/-! ## Well-formed JSON values and the parsing fuel measure -/

/-- Key lists of JavaScript objects are duplicate-free. -/
def noDupKeys (ks : List String) : Bool := decide ks.Nodup

mutual

/-- Well-formedness of a JSON value as a model of a JavaScript runtime
value: every object's key list is duplicate-free. -/
def jWF : Json → Bool
  | .arr xs => jWFElems xs
  | .obj fs => noDupKeys (fs.map Prod.fst) && jWFMembers fs
  | _ => true

/-- All array elements well-formed. -/
def jWFElems : List Json → Bool
  | [] => true
  | x :: xs => jWF x && jWFElems xs

/-- All object member values well-formed. -/
def jWFMembers : List (String × Json) → Bool
  | [] => true
  | (_, v) :: fs => jWF v && jWFMembers fs

end

mutual

/-- Recursion depth measure used to discharge the parser's fuel. -/
def jSize : Json → Nat
  | .arr xs => 1 + jSizeElems xs
  | .obj fs => 1 + jSizeMembers fs
  | _ => 1

/-- Fuel measure for array elements. -/
def jSizeElems : List Json → Nat
  | [] => 0
  | x :: xs => 1 + jSize x + jSizeElems xs

/-- Fuel measure for object members. -/
def jSizeMembers : List (String × Json) → Nat
  | [] => 0
  | (_, v) :: fs => 1 + jSize v + jSizeMembers fs

end

/-! ## Round trip: `jsonParse` inverts `jsonStringify` -/

theorem string_eta (s : String) : (⟨s.data⟩ : String) = s := rfl

theorem skipWs_cons {c : Char} (l : List Char) (h : isJsonWs c = false) :
    skipWs (c :: l) = c :: l := by
  simp [skipWs, h]

theorem toNat_ofNat_valid {n : Nat} (h : n.isValidChar) : (Char.ofNat n).toNat = n := by
  rw [Char.ofNat, dif_pos h]
  rfl

theorem isValidChar_of_small {n : Nat} (h : n < 0xD800) : n.isValidChar := Or.inl h

theorem hexVal_hexDigit {n : Nat} (h : n < 16) : hexVal (hexDigit n) = some n := by
  interval_cases n <;> decide

theorem psb_quote (fuel : Nat) (rest : List Char) :
    parseStrBody (fuel + 1) ('"' :: rest) = some ([], rest) := rfl

theorem psb_esc_quote (fuel : Nat) (t : List Char) :
    parseStrBody (fuel + 1) ('\\' :: '"' :: t) =
      (parseStrBody fuel t).map (fun p => ('"' :: p.1, p.2)) := rfl

theorem psb_esc_back (fuel : Nat) (t : List Char) :
    parseStrBody (fuel + 1) ('\\' :: '\\' :: t) =
      (parseStrBody fuel t).map (fun p => ('\\' :: p.1, p.2)) := rfl

theorem psb_esc_b (fuel : Nat) (t : List Char) :
    parseStrBody (fuel + 1) ('\\' :: 'b' :: t) =
      (parseStrBody fuel t).map (fun p => ('\x08' :: p.1, p.2)) := rfl

theorem psb_esc_t (fuel : Nat) (t : List Char) :
    parseStrBody (fuel + 1) ('\\' :: 't' :: t) =
      (parseStrBody fuel t).map (fun p => ('\x09' :: p.1, p.2)) := rfl

theorem psb_esc_n (fuel : Nat) (t : List Char) :
    parseStrBody (fuel + 1) ('\\' :: 'n' :: t) =
      (parseStrBody fuel t).map (fun p => ('\x0a' :: p.1, p.2)) := rfl

theorem psb_esc_f (fuel : Nat) (t : List Char) :
    parseStrBody (fuel + 1) ('\\' :: 'f' :: t) =
      (parseStrBody fuel t).map (fun p => ('\x0c' :: p.1, p.2)) := rfl

theorem psb_esc_r (fuel : Nat) (t : List Char) :
    parseStrBody (fuel + 1) ('\\' :: 'r' :: t) =
      (parseStrBody fuel t).map (fun p => ('\x0d' :: p.1, p.2)) := rfl

theorem psb_esc_u (fuel : Nat) (t : List Char) :
    parseStrBody (fuel + 1) ('\\' :: 'u' :: t) =
      (decodeU t).bind
        (fun q => (parseStrBody fuel q.2).map (fun p => (q.1 :: p.1, p.2))) := rfl

theorem psb_raw (fuel : Nat) (c : Char) (t : List Char) (h1 : c ≠ '"') (h2 : c ≠ '\\')
    (h3 : ¬ c.toNat < 0x20) :
    parseStrBody (fuel + 1) (c :: t) =
      (parseStrBody fuel t).map (fun p => (c :: p.1, p.2)) := by
  rw [parseStrBody.eq_def]
  simp only [if_neg h1, if_neg h2, if_neg h3]

theorem decodeU_small (d1 d2 d3 d4 : Char) (h1 h2 h3 h4 : Nat) (t : List Char)
    (e1 : hexVal d1 = some h1) (e2 : hexVal d2 = some h2)
    (e3 : hexVal d3 = some h3) (e4 : hexVal d4 = some h4)
    (hlt : 4096 * h1 + 256 * h2 + 16 * h3 + h4 < 0xD800) :
    decodeU (d1 :: d2 :: d3 :: d4 :: t) =
      some (Char.ofNat (4096 * h1 + 256 * h2 + 16 * h3 + h4), t) := by
  have hp4 : hex4 d1 d2 d3 d4 = some (4096 * h1 + 256 * h2 + 16 * h3 + h4) := by
    unfold hex4
    rw [e1, e2, e3, e4]
  rw [show decodeU (d1 :: d2 :: d3 :: d4 :: t) =
    (match hex4 d1 d2 d3 d4 with
     | none => none
     | some n =>
       if 0xD800 ≤ n ∧ n ≤ 0xDBFF then
         match t with
         | '\\' :: 'u' :: a2 :: b2 :: c2 :: d2 :: rest3 =>
           (match hex4 a2 b2 c2 d2 with
            | none => none
            | some m =>
              if 0xDC00 ≤ m ∧ m ≤ 0xDFFF then
                some (Char.ofNat (0x10000 + (n - 0xD800) * 0x400 + (m - 0xDC00)), rest3)
              else none)
         | _ => none
       else if 0xDC00 ≤ n ∧ n ≤ 0xDFFF then none
       else some (Char.ofNat n, t)) from rfl]
  rw [hp4]
  split
  next heq => exact absurd heq (by simp)
  next n heq =>
    rw [Option.some.injEq] at heq
    subst heq
    rw [if_neg (by omega), if_neg (by omega)]

theorem length_le_flatMap_escChar (cs : List Char) :
    cs.length ≤ (cs.flatMap escChar).length := by
  induction cs with
  | nil => simp
  | cons c cs ih =>
    rw [List.flatMap_cons, List.length_append, List.length_cons]
    have : 1 ≤ (escChar c).length := by
      unfold escChar
      split_ifs <;> simp
    omega

theorem parseStrBody_append (cs rest : List Char) :
    ∀ fuel, cs.length + 1 ≤ fuel →
      parseStrBody fuel (cs.flatMap escChar ++ '"' :: rest) = some (cs, rest) := by
  induction cs with
  | nil =>
    intro fuel hf
    obtain ⟨f, rfl⟩ : ∃ f, fuel = f + 1 := ⟨fuel - 1, by omega⟩
    exact psb_quote f rest
  | cons c cs ih =>
    intro fuel hf
    obtain ⟨f, rfl⟩ : ∃ f, fuel = f + 1 := ⟨fuel - 1, by omega⟩
    have ihf := ih f (by simp at hf ⊢; omega)
    rw [List.flatMap_cons, List.append_assoc]
    generalize hcs : cs.flatMap escChar ++ '"' :: rest = tail at ihf ⊢
    unfold escChar
    split_ifs with h1 h2 h3 h4 h5 h6 h7 h8
    · subst h1
      rw [List.cons_append, List.cons_append, List.nil_append, psb_esc_quote, ihf]
      rfl
    · subst h2
      rw [List.cons_append, List.cons_append, List.nil_append, psb_esc_back, ihf]
      rfl
    · subst h3
      rw [List.cons_append, List.cons_append, List.nil_append, psb_esc_b, ihf]
      rfl
    · subst h4
      rw [List.cons_append, List.cons_append, List.nil_append, psb_esc_t, ihf]
      rfl
    · subst h5
      rw [List.cons_append, List.cons_append, List.nil_append, psb_esc_n, ihf]
      rfl
    · subst h6
      rw [List.cons_append, List.cons_append, List.nil_append, psb_esc_f, ihf]
      rfl
    · subst h7
      rw [List.cons_append, List.cons_append, List.nil_append, psb_esc_r, ihf]
      rfl
    · have hv16 : c.toNat / 16 < 16 := by omega
      have hm16 : c.toNat % 16 < 16 := by omega
      simp only [List.cons_append, List.nil_append]
      rw [psb_esc_u,
        decodeU_small _ _ _ _ 0 0 (c.toNat / 16) (c.toNat % 16) _ (by decide) (by decide)
          (hexVal_hexDigit hv16) (hexVal_hexDigit hm16) (by omega)]
      rw [show 4096 * 0 + 256 * 0 + 16 * (c.toNat / 16) + c.toNat % 16 = c.toNat by omega,
        Char.ofNat_toNat]
      simp only [Option.some_bind]
      rw [ihf]
      rfl
    · simp only [List.cons_append, List.nil_append]
      rw [psb_raw f c _ h1 h2 h8, ihf]
      rfl

/-! ### Numeric literals round-trip -/

theorem jDig_ofNat_digit {d : Nat} (h : d < 10) : isDig (Char.ofNat (48 + d)) = true := by
  have hv : (48 + d).isValidChar := Or.inl (by omega)
  simp only [isDig, toNat_ofNat_valid hv]
  simp only [Bool.and_eq_true, decide_eq_true_iff]
  omega

theorem natChars_ne_nil (n : Nat) : natChars n ≠ [] := by
  rw [natChars]
  split <;> simp

theorem natChars_digits (n : Nat) : ∀ c ∈ natChars n, isDig c = true := by
  induction n using Nat.strong_induction_on with
  | _ n ih =>
    rw [natChars]
    split
    next h =>
      intro c hc
      simp only [List.mem_singleton] at hc
      subst hc
      exact jDig_ofNat_digit h
    next h =>
      intro c hc
      rw [List.mem_append] at hc
      rcases hc with hc | hc
      · exact ih (n / 10) (Nat.div_lt_self (by omega) (by omega)) c hc
      · simp only [List.mem_singleton] at hc
        subst hc
        exact jDig_ofNat_digit (Nat.mod_lt _ (by omega))

theorem digitsToNat_append_digit (l : List Char) (c : Char) :
    digitsToNat (l ++ [c]) = 10 * digitsToNat l + (c.toNat - 48) := by
  unfold digitsToNat
  rw [List.foldl_append]
  rfl

theorem digitsToNat_natChars (n : Nat) : digitsToNat (natChars n) = n := by
  induction n using Nat.strong_induction_on with
  | _ n ih =>
    rw [natChars]
    split
    next h =>
      have hv : (48 + n).isValidChar := Or.inl (by omega)
      simp only [digitsToNat, List.foldl_cons, List.foldl_nil, toNat_ofNat_valid hv]
      omega
    next h =>
      rw [digitsToNat_append_digit, ih (n / 10) (Nat.div_lt_self (by omega) (by omega)),
        toNat_ofNat_valid (Or.inl (by omega))]
      omega

theorem natChars_head_ne_zero (n : Nat) (hn : 1 ≤ n) : (natChars n).head? ≠ some '0' := by
  induction n using Nat.strong_induction_on with
  | _ n ih =>
    rw [natChars]
    split
    next h =>
      intro he
      simp only [List.head?_cons, Option.some.injEq] at he
      have := congrArg Char.toNat he
      rw [toNat_ofNat_valid (Or.inl (by omega))] at this
      have h0 : ('0').toNat = 48 := by decide
      omega
    next h =>
      rcases hcase : natChars (n / 10) with _ | ⟨a, l⟩
      · exact absurd hcase (natChars_ne_nil _)
      · have hprev := ih (n / 10) (Nat.div_lt_self (by omega) (by omega)) (by omega)
        rw [hcase] at hprev
        simpa using hprev

theorem takeDigits_append (ds rest : List Char) (hds : ∀ c ∈ ds, isDig c = true)
    (hrest : ∀ c, rest.head? = some c → isDig c = false) :
    takeDigits (ds ++ rest) = (ds, rest) := by
  induction ds with
  | nil =>
    simp only [List.nil_append]
    cases rest with
    | nil => rfl
    | cons c r =>
      unfold takeDigits
      rw [if_neg (by rw [hrest c rfl]; simp)]
  | cons d ds ih =>
    simp only [List.cons_append]
    unfold takeDigits
    rw [if_pos (hds d (by simp)), ih (fun c hc => hds c (by simp [hc]))]

/-- Boundary condition after a serialized value: the next character (if
any) cannot extend a numeric literal. -/
def numBoundary (rest : List Char) : Prop :=
  ∀ c, rest.head? = some c → isDig c = false ∧ c ≠ '.' ∧ c ≠ 'e' ∧ c ≠ 'E'

theorem numBoundary_nil : numBoundary [] := fun c hc => by simp at hc

theorem numBoundary_cons {c : Char} (r : List Char)
    (h : isDig c = false ∧ c ≠ '.' ∧ c ≠ 'e' ∧ c ≠ 'E') : numBoundary (c :: r) :=
  fun c' hc' => by
    simp only [List.head?_cons, Option.some.injEq] at hc'
    subst hc'
    exact h

theorem parseNumNat_natChars (n : Nat) (rest : List Char) (hrest : numBoundary rest) :
    parseNumNat (natChars n ++ rest) = some (n, rest) := by
  unfold parseNumNat
  rw [takeDigits_append _ _ (natChars_digits n) (fun c hc => (hrest c hc).1)]
  rcases hex : natChars n with _ | ⟨d, ds⟩
  · exact absurd hex (natChars_ne_nil n)
  · have hlz : ¬(1 < (d :: ds).length ∧ (d :: ds).head? = some '0') := by
      by_cases hn : n = 0
      · subst hn
        have h0 : natChars 0 = ['0'] := by
          rw [natChars]
          rfl
        rw [h0] at hex
        injection hex with h1 h2
        subst h2
        simp
      · have hh := natChars_head_ne_zero n (by omega)
        rw [hex, List.head?_cons] at hh
        rintro ⟨-, h2⟩
        exact hh h2
    have hval : digitsToNat (d :: ds) = n := by
      rw [← hex]
      exact digitsToNat_natChars n
    have hterm : numTermOk rest = true := by
      cases rest with
      | nil => rfl
      | cons c r =>
        obtain ⟨-, hd, he, hE⟩ := hrest c rfl
        simp [numTermOk, hd, he, hE]
    simp only [if_neg (List.cons_ne_nil d ds), if_neg hlz, if_pos hterm, hval]

theorem isDig_ne_dash {c : Char} (h : isDig c = true) : c ≠ '-' := by
  intro he
  subst he
  exact absurd h (by decide)

theorem parseNum_dash (l : List Char) :
    parseNum ('-' :: l) = (parseNumNat l).map (fun p => (-(p.1 : Int), p.2)) := rfl

theorem parseNum_intChars (i : Int) (rest : List Char) (hrest : numBoundary rest) :
    parseNum (intChars i ++ rest) = some (i, rest) := by
  by_cases hi : i < 0
  · rw [show intChars i = '-' :: natChars (-i).toNat by rw [intChars, if_pos hi]]
    rw [List.cons_append, parseNum_dash, parseNumNat_natChars _ _ hrest]
    simp only [Option.map_some']
    rw [Option.some.injEq, Prod.mk.injEq]
    exact ⟨by omega, rfl⟩
  · rw [show intChars i = natChars i.toNat by rw [intChars, if_neg hi]]
    rcases hex : natChars i.toNat with _ | ⟨d, ds⟩
    · exact absurd hex (natChars_ne_nil _)
    · have hdig : isDig d = true := natChars_digits i.toNat d (by rw [hex]; simp)
      rw [List.cons_append, parseNum.eq_def]
      split
      next heq =>
        rw [List.cons.injEq] at heq
        exact absurd heq.1 (isDig_ne_dash hdig)
      next hne =>
        rw [← List.cons_append, ← hex, parseNumNat_natChars _ _ hrest]
        simp only [Option.map_some']
        rw [Option.some.injEq, Prod.mk.injEq]
        exact ⟨by omega, rfl⟩
/-! ### Head shape of serialized values -/

theorem isJsonWs_eq_false_of {c : Char} (h2 : c ≠ ' ') (h3 : c ≠ '\x09') (h4 : c ≠ '\x0a')
    (h5 : c ≠ '\x0d') : isJsonWs c = false := by
  unfold isJsonWs
  simp [h2, h3, h4, h5]

theorem isDig_head_facts {c : Char} (h : isDig c = true) :
    isJsonWs c = false ∧ c ≠ ']' ∧ c ≠ '\x7d' ∧ c ≠ 'n' ∧ c ≠ 't' ∧ c ≠ 'f' ∧
      c ≠ '"' ∧ c ≠ '[' ∧ c ≠ '\x7b' := by
  have hne : ∀ d : Char, isDig d = false → c ≠ d := by
    intro d hd he
    subst he
    rw [h] at hd
    exact absurd hd (by simp)
  exact ⟨isJsonWs_eq_false_of (hne ' ' (by decide)) (hne '\x09' (by decide))
      (hne '\x0a' (by decide)) (hne '\x0d' (by decide)),
    hne ']' (by decide), hne '\x7d' (by decide), hne 'n' (by decide), hne 't' (by decide),
    hne 'f' (by decide), hne '"' (by decide), hne '[' (by decide), hne '\x7b' (by decide)⟩

theorem intChars_head (i : Int) :
    ∃ c cs, intChars i = c :: cs ∧ (c = '-' ∨ isDig c = true) := by
  unfold intChars
  split
  · exact ⟨'-', _, rfl, Or.inl rfl⟩
  · rcases hex : natChars i.toNat with _ | ⟨d, ds⟩
    · exact absurd hex (natChars_ne_nil _)
    · exact ⟨d, ds, rfl, Or.inr (natChars_digits _ d (by rw [hex]; simp))⟩

theorem jStr_head (v : Json) :
    ∃ c cs, jStr v = c :: cs ∧ isJsonWs c = false ∧ c ≠ ']' ∧ c ≠ '\x7d' := by
  cases v with
  | null => exact ⟨'n', _, rfl, by decide, by decide, by decide⟩
  | bool b =>
    cases b
    · exact ⟨'f', _, rfl, by decide, by decide, by decide⟩
    · exact ⟨'t', _, rfl, by decide, by decide, by decide⟩
  | num i =>
    obtain ⟨c, cs, hic, hc⟩ := intChars_head i
    refine ⟨c, cs, hic, ?_, ?_, ?_⟩
    · rcases hc with rfl | hd
      · decide
      · exact (isDig_head_facts hd).1
    · rcases hc with rfl | hd
      · decide
      · exact (isDig_head_facts hd).2.1
    · rcases hc with rfl | hd
      · decide
      · exact (isDig_head_facts hd).2.2.1
  | str s => exact ⟨'"', _, rfl, by decide, by decide, by decide⟩
  | arr xs => exact ⟨'[', _, rfl, by decide, by decide, by decide⟩
  | obj fs => exact ⟨'\x7b', _, rfl, by decide, by decide, by decide⟩

/-- Serialization of the elements after the first one of an array. -/
def elemsTail : List Json → List Char
  | [] => []
  | y :: ys => ',' :: jStrElems (y :: ys)

/-- Serialization of the members after the first one of an object. -/
def memTail : List (String × Json) → List Char
  | [] => []
  | m :: ms => ',' :: jStrMembers (m :: ms)

theorem jStrElems_cons (x : Json) (xs : List Json) :
    jStrElems (x :: xs) = jStr x ++ elemsTail xs := by
  cases xs with
  | nil =>
    rw [show elemsTail [] = [] from rfl, List.append_nil]
    rfl
  | cons y ys => rfl

theorem jStrMembers_cons (k : String) (v : Json) (ms : List (String × Json)) :
    jStrMembers ((k, v) :: ms) = quoteStr k ++ ':' :: jStr v ++ memTail ms := by
  cases ms with
  | nil =>
    rw [show memTail [] = [] from rfl, List.append_nil]
    rfl
  | cons m ms => rfl

theorem jSize_pos (v : Json) : 1 ≤ jSize v := by
  cases v <;> simp [jSize]

theorem objInsert_of_not_mem (fs : List (String × Json)) (k : String) (v : Json)
    (h : ∀ p ∈ fs, p.1 ≠ k) : objInsert fs k v = fs ++ [(k, v)] := by
  unfold objInsert
  rw [if_neg]
  intro hc
  rw [List.any_eq_true] at hc
  obtain ⟨p, hp, he⟩ := hc
  exact h p hp (by simpa using he)

theorem not_key_in_of_nodup (acc fs' : List (String × Json)) (k : String) (v : Json)
    (hnd : ((acc ++ (k, v) :: fs').map Prod.fst).Nodup) : ∀ p ∈ acc, p.1 ≠ k := by
  rw [List.map_append] at hnd
  have hdis := List.disjoint_of_nodup_append hnd
  intro p hp he
  exact hdis (List.mem_map_of_mem Prod.fst hp) (by simp [he])

theorem noDupKeys_iff (ks : List String) : noDupKeys ks = true ↔ ks.Nodup := by
  simp [noDupKeys]

theorem jSize_arr_eq (xs : List Json) : jSize (.arr xs) = 1 + jSizeElems xs := rfl

theorem jSize_obj_eq (fs : List (String × Json)) : jSize (.obj fs) = 1 + jSizeMembers fs := rfl

theorem jSizeElems_cons_eq (x : Json) (xs : List Json) :
    jSizeElems (x :: xs) = 1 + jSize x + jSizeElems xs := rfl

theorem jSizeMembers_cons_eq (k : String) (v : Json) (fs : List (String × Json)) :
    jSizeMembers ((k, v) :: fs) = 1 + jSize v + jSizeMembers fs := rfl

/-- Joint statement: at sufficient fuel, the value, array-element and
object-member parsers invert serialization, leaving any suffix that
cannot extend a numeric literal untouched. -/
theorem parse_inverts_jStr (fuel : Nat) :
    (∀ v rest, jWF v = true → jSize v ≤ fuel → numBoundary rest →
      parseVal fuel (jStr v ++ rest) = some (v, rest)) ∧
    (∀ xs acc rest, xs ≠ [] → jWFElems xs = true → jSizeElems xs ≤ fuel → numBoundary rest →
      parseElems fuel acc (jStrElems xs ++ ']' :: rest) = some (.arr (acc ++ xs), rest)) ∧
    (∀ fs acc rest, fs ≠ [] → jWFMembers fs = true → jSizeMembers fs ≤ fuel →
      ((acc ++ fs).map Prod.fst).Nodup → numBoundary rest →
      parseMembers fuel acc (jStrMembers fs ++ '\x7d' :: rest) =
        some (.obj (acc ++ fs), rest)) := by
  induction fuel with
  | zero =>
    refine ⟨fun v rest hw hf hrest => ?_, fun xs acc rest hne hw hf hrest => ?_,
      fun fs acc rest hne hw hf hnd hrest => ?_⟩
    · have := jSize_pos v
      omega
    · rcases xs with _ | ⟨x, xs'⟩
      · exact absurd rfl hne
      · rw [jSizeElems_cons_eq] at hf
        omega
    · rcases fs with _ | ⟨⟨k, v⟩, fs'⟩
      · exact absurd rfl hne
      · rw [jSizeMembers_cons_eq] at hf
        omega
  | succ f ih =>
    obtain ⟨ihV, ihE, ihM⟩ := ih
    refine ⟨fun v rest hw hf hrest => ?_, fun xs acc rest hne hw hf hrest => ?_,
      fun fs acc rest hne hw hf hnd hrest => ?_⟩
    · -- parseVal
      cases v with
      | null =>
        rw [show jStr .null ++ rest = 'n' :: 'u' :: 'l' :: 'l' :: rest from rfl,
          parseVal.eq_def]
        have hsk : skipWs ('n' :: 'u' :: 'l' :: 'l' :: rest) =
            'n' :: 'u' :: 'l' :: 'l' :: rest := skipWs_cons _ (by decide)
        simp only [hsk]
        simp [expectChars]
      | bool b =>
        cases b with
        | true =>
          rw [show jStr (.bool true) ++ rest = 't' :: 'r' :: 'u' :: 'e' :: rest from rfl,
            parseVal.eq_def]
          have hsk : skipWs ('t' :: 'r' :: 'u' :: 'e' :: rest) =
              't' :: 'r' :: 'u' :: 'e' :: rest := skipWs_cons _ (by decide)
          simp only [hsk]
          simp [expectChars]
        | false =>
          rw [show jStr (.bool false) ++ rest = 'f' :: 'a' :: 'l' :: 's' :: 'e' :: rest from
            rfl, parseVal.eq_def]
          have hsk : skipWs ('f' :: 'a' :: 'l' :: 's' :: 'e' :: rest) =
              'f' :: 'a' :: 'l' :: 's' :: 'e' :: rest := skipWs_cons _ (by decide)
          simp only [hsk]
          simp [expectChars]
      | num n =>
        obtain ⟨c0, cs0, hic, hc0⟩ := intChars_head n
        have hfacts : isJsonWs c0 = false ∧ c0 ≠ 'n' ∧ c0 ≠ 't' ∧ c0 ≠ 'f' ∧ c0 ≠ '"' ∧
            c0 ≠ '[' ∧ c0 ≠ '\x7b' := by
          rcases hc0 with rfl | hd
          · exact ⟨by decide, by decide, by decide, by decide, by decide, by decide,
              by decide⟩
          · obtain ⟨hws, -, -, hn, ht, hf', hq, hl, hb⟩ := isDig_head_facts hd
            exact ⟨hws, hn, ht, hf', hq, hl, hb⟩
        obtain ⟨hws, hn', ht', hf', hq', hl', hb'⟩ := hfacts
        rw [show jStr (.num n) ++ rest = intChars n ++ rest from rfl, hic, List.cons_append,
          parseVal.eq_def]
        have hsk : skipWs (c0 :: (cs0 ++ rest)) = c0 :: (cs0 ++ rest) := skipWs_cons _ hws
        simp only [hsk, if_neg hn', if_neg ht', if_neg hf', if_neg hq', if_neg hl',
          if_neg hb']
        rw [if_pos hc0, ← List.cons_append, ← hic, parseNum_intChars n rest hrest]
        rfl
      | str s =>
        rw [show jStr (.str s) ++ rest = '"' :: (s.data.flatMap escChar ++ '"' :: rest) by
          simp [jStr, quoteStr], parseVal.eq_def]
        have hsk : skipWs ('"' :: (s.data.flatMap escChar ++ '"' :: rest)) =
            '"' :: (s.data.flatMap escChar ++ '"' :: rest) := skipWs_cons _ (by decide)
        simp only [hsk]
        have hlen : s.data.length + 1 ≤ (s.data.flatMap escChar ++ '"' :: rest).length + 1 := by
          have := length_le_flatMap_escChar s.data
          simp only [List.length_append, List.length_cons]
          omega
        rw [if_pos trivial, parseStrBody_append s.data rest _ hlen]
        rfl
      | arr xs =>
        cases xs with
        | nil =>
          rw [show jStr (.arr []) ++ rest = '[' :: ']' :: rest from rfl, parseVal.eq_def]
          have hsk : skipWs ('[' :: ']' :: rest) = '[' :: ']' :: rest :=
            skipWs_cons _ (by decide)
          have hsk2 : skipWs (']' :: rest) = ']' :: rest := skipWs_cons _ (by decide)
          simp only [hsk, hsk2]
          simp
        | cons x xs' =>
          obtain ⟨c1, cs1, hjx, hws1, hne1, hne2⟩ := jStr_head x
          rw [show jStr (.arr (x :: xs')) ++ rest =
              '[' :: (jStrElems (x :: xs') ++ ']' :: rest) by simp [jStr], parseVal.eq_def]
          have helems : jStrElems (x :: xs') ++ ']' :: rest =
              c1 :: (cs1 ++ (elemsTail xs' ++ ']' :: rest)) := by
            rw [jStrElems_cons, hjx]
            simp [List.append_assoc]
          have hsk : skipWs ('[' :: (jStrElems (x :: xs') ++ ']' :: rest)) =
              '[' :: (jStrElems (x :: xs') ++ ']' :: rest) := skipWs_cons _ (by decide)
          have hsk2 : skipWs (jStrElems (x :: xs') ++ ']' :: rest) =
              jStrElems (x :: xs') ++ ']' :: rest := by
            rw [helems]
            exact skipWs_cons _ hws1
          have hhead : ¬((jStrElems (x :: xs') ++ ']' :: rest).head? = some ']') := by
            rw [helems]
            simp [hne1]
          simp only [hsk, hsk2]
          rw [if_pos trivial, if_neg hhead]
          have harg := ihE (x :: xs') [] rest (by simp) (by simpa [jWF] using hw)
            (by rw [jSize_arr_eq] at hf; omega) hrest
          simpa using harg
      | obj fs =>
        cases fs with
        | nil =>
          rw [show jStr (.obj []) ++ rest = '\x7b' :: '\x7d' :: rest from rfl,
            parseVal.eq_def]
          have hsk : skipWs ('\x7b' :: '\x7d' :: rest) = '\x7b' :: '\x7d' :: rest :=
            skipWs_cons _ (by decide)
          have hsk2 : skipWs ('\x7d' :: rest) = '\x7d' :: rest := skipWs_cons _ (by decide)
          simp only [hsk, hsk2]
          simp
        | cons m fs' =>
          obtain ⟨k, v⟩ := m
          rw [show jStr (.obj ((k, v) :: fs')) ++ rest =
              '\x7b' :: (jStrMembers ((k, v) :: fs') ++ '\x7d' :: rest) by simp [jStr],
            parseVal.eq_def]
          have hmem : jStrMembers ((k, v) :: fs') ++ '\x7d' :: rest =
              '"' :: ((k.data.flatMap escChar ++ ['"']) ++
                (':' :: jStr v ++ (memTail fs' ++ '\x7d' :: rest))) := by
            rw [jStrMembers_cons]
            simp [quoteStr, List.append_assoc]
          have hsk : skipWs ('\x7b' :: (jStrMembers ((k, v) :: fs') ++ '\x7d' :: rest)) =
              '\x7b' :: (jStrMembers ((k, v) :: fs') ++ '\x7d' :: rest) :=
            skipWs_cons _ (by decide)
          have hsk2 : skipWs (jStrMembers ((k, v) :: fs') ++ '\x7d' :: rest) =
              jStrMembers ((k, v) :: fs') ++ '\x7d' :: rest := by
            rw [hmem]
            exact skipWs_cons _ (by decide)
          have hhead : ¬((jStrMembers ((k, v) :: fs') ++ '\x7d' :: rest).head? =
              some '\x7d') := by
            rw [hmem]
            simp
          simp only [hsk, hsk2]
          rw [if_pos trivial, if_neg hhead]
          have hw' : noDupKeys (((k, v) :: fs').map Prod.fst) = true ∧
              jWFMembers ((k, v) :: fs') = true := by
            have h0 : jWF (.obj ((k, v) :: fs')) =
                (noDupKeys ((((k, v) :: fs')).map Prod.fst) &&
                  jWFMembers ((k, v) :: fs')) := rfl
            rw [h0, Bool.and_eq_true] at hw
            exact hw
          have harg := ihM ((k, v) :: fs') [] rest (by simp) hw'.2
            (by rw [jSize_obj_eq] at hf; omega)
            (by simpa using (noDupKeys_iff _).mp hw'.1) hrest
          simpa using harg
    · -- parseElems
      rcases xs with _ | ⟨x, xs'⟩
      · exact absurd rfl hne
      rw [jStrElems_cons, List.append_assoc, parseElems.eq_def]
      have hwx : jWF x = true ∧ jWFElems xs' = true := by simpa [jWFElems] using hw
      have hrest' : numBoundary (elemsTail xs' ++ ']' :: rest) := by
        cases xs' with
        | nil =>
          rw [show elemsTail ([] : List Json) = [] from rfl, List.nil_append]
          exact numBoundary_cons _ (by decide)
        | cons y ys =>
          rw [show elemsTail (y :: ys) = ',' :: jStrElems (y :: ys) from rfl,
            List.cons_append]
          exact numBoundary_cons _ (by decide)
      simp only [ihV x _ hwx.1 (by rw [jSizeElems_cons_eq] at hf; omega) hrest']
      cases xs' with
      | nil =>
        rw [show elemsTail ([] : List Json) = [] from rfl]
        have hsk : skipWs (']' :: rest) = ']' :: rest := skipWs_cons _ (by decide)
        simp only [List.nil_append, hsk]
        simp
      | cons y ys =>
        rw [show elemsTail (y :: ys) = ',' :: jStrElems (y :: ys) from rfl]
        have hsk : skipWs (',' :: (jStrElems (y :: ys) ++ ']' :: rest)) =
            ',' :: (jStrElems (y :: ys) ++ ']' :: rest) := skipWs_cons _ (by decide)
        simp only [List.cons_append, hsk]
        rw [if_pos trivial,
          ihE (y :: ys) (acc ++ [x]) rest (by simp) hwx.2
            (by rw [jSizeElems_cons_eq] at hf; omega) hrest]
        simp
    · -- parseMembers
      rcases fs with _ | ⟨⟨k, v⟩, fs'⟩
      · exact absurd rfl hne
      rw [jStrMembers_cons, parseMembers.eq_def]
      have hshape : (quoteStr k ++ ':' :: jStr v ++ memTail fs') ++ '\x7d' :: rest =
          '"' :: (k.data.flatMap escChar ++
            '"' :: (':' :: (jStr v ++ (memTail fs' ++ '\x7d' :: rest)))) := by
        simp [quoteStr, List.append_assoc]
      rw [hshape]
      have hsk : skipWs ('"' :: (k.data.flatMap escChar ++
          '"' :: (':' :: (jStr v ++ (memTail fs' ++ '\x7d' :: rest))))) =
          '"' :: (k.data.flatMap escChar ++
            '"' :: (':' :: (jStr v ++ (memTail fs' ++ '\x7d' :: rest)))) :=
        skipWs_cons _ (by decide)
      have hklen : k.data.length + 1 ≤ (k.data.flatMap escChar ++
          '"' :: (':' :: (jStr v ++ (memTail fs' ++ '\x7d' :: rest)))).length + 1 := by
        have := length_le_flatMap_escChar k.data
        simp only [List.length_append, List.length_cons]
        omega
      have hsk2 : skipWs (':' :: (jStr v ++ (memTail fs' ++ '\x7d' :: rest))) =
          ':' :: (jStr v ++ (memTail fs' ++ '\x7d' :: rest)) := skipWs_cons _ (by decide)
      have hwv : jWF v = true ∧ jWFMembers fs' = true := by simpa [jWFMembers] using hw
      have hrestV : numBoundary (memTail fs' ++ '\x7d' :: rest) := by
        cases fs' with
        | nil =>
          rw [show memTail ([] : List (String × Json)) = [] from rfl, List.nil_append]
          exact numBoundary_cons _ (by decide)
        | cons m ms =>
          rw [show memTail (m :: ms) = ',' :: jStrMembers (m :: ms) from rfl,
            List.cons_append]
          exact numBoundary_cons _ (by decide)
      simp only [hsk, if_pos trivial, parseStrBody_append k.data _ _ hklen, hsk2,
        ihV v _ hwv.1 (by rw [jSizeMembers_cons_eq] at hf; omega) hrestV, string_eta,
        objInsert_of_not_mem acc k v (not_key_in_of_nodup acc fs' k v hnd)]
      cases fs' with
      | nil =>
        rw [show memTail ([] : List (String × Json)) = [] from rfl]
        have hsk3 : skipWs ('\x7d' :: rest) = '\x7d' :: rest := skipWs_cons _ (by decide)
        simp only [List.nil_append, hsk3]
        simp
      | cons m ms =>
        rw [show memTail (m :: ms) = ',' :: jStrMembers (m :: ms) from rfl]
        have hsk3 : skipWs (',' :: (jStrMembers (m :: ms) ++ '\x7d' :: rest)) =
            ',' :: (jStrMembers (m :: ms) ++ '\x7d' :: rest) := skipWs_cons _ (by decide)
        simp only [List.cons_append, hsk3]
        rw [if_pos trivial,
          ihM (m :: ms) (acc ++ [(k, v)]) rest (by simp) hwv.2
            (by rw [jSizeMembers_cons_eq] at hf; omega) (by simpa using hnd) hrest]
        simp

/-- The fuel measure of a value is bounded by the length of its
serialization. -/
theorem jSize_le_jStr (n : Nat) :
    (∀ v, jSize v ≤ n → jSize v ≤ (jStr v).length) ∧
    (∀ xs, jSizeElems xs ≤ n → jSizeElems xs ≤ (jStrElems xs).length + 1) ∧
    (∀ fs, jSizeMembers fs ≤ n → jSizeMembers fs ≤ (jStrMembers fs).length + 1) := by
  induction n with
  | zero =>
    refine ⟨fun v h => absurd h (by have := jSize_pos v; omega), fun xs h => ?_,
      fun fs h => ?_⟩
    · cases xs with
      | nil => rw [show jSizeElems [] = 0 from rfl]; omega
      | cons x xs' => rw [jSizeElems_cons_eq] at h; omega
    · cases fs with
      | nil => rw [show jSizeMembers [] = 0 from rfl]; omega
      | cons m fs' =>
        obtain ⟨k, v⟩ := m
        rw [jSizeMembers_cons_eq] at h
        omega
  | succ n ih =>
    obtain ⟨ihV, ihE, ihM⟩ := ih
    refine ⟨fun v h => ?_, fun xs h => ?_, fun fs h => ?_⟩
    · cases v with
      | null =>
        rw [show jSize Json.null = 1 from rfl,
          show jStr Json.null = ['n', 'u', 'l', 'l'] from rfl]
        simp
      | bool b =>
        cases b with
        | true =>
          rw [show jSize (Json.bool true) = 1 from rfl,
            show jStr (Json.bool true) = ['t', 'r', 'u', 'e'] from rfl]
          simp
        | false =>
          rw [show jSize (Json.bool false) = 1 from rfl,
            show jStr (Json.bool false) = ['f', 'a', 'l', 's', 'e'] from rfl]
          simp
      | num m =>
        obtain ⟨c0, cs0, hic, -⟩ := intChars_head m
        rw [show jSize (Json.num m) = 1 from rfl,
          show jStr (Json.num m) = intChars m from rfl, hic]
        simp
      | str s =>
        rw [show jSize (Json.str s) = 1 from rfl,
          show jStr (Json.str s) = '"' :: (s.data.flatMap escChar ++ ['"']) by
            simp [jStr, quoteStr]]
        simp
      | arr xs =>
        rw [jSize_arr_eq] at h ⊢
        rw [show jStr (Json.arr xs) = '[' :: (jStrElems xs ++ [']']) from rfl]
        have hxs := ihE xs (by omega)
        simp only [List.length_cons, List.length_append]
        omega
      | obj fs =>
        rw [jSize_obj_eq] at h ⊢
        rw [show jStr (Json.obj fs) = '\x7b' :: (jStrMembers fs ++ ['\x7d']) from rfl]
        have hfs := ihM fs (by omega)
        simp only [List.length_cons, List.length_append]
        omega
    · cases xs with
      | nil => rw [show jSizeElems [] = 0 from rfl]; omega
      | cons x xs' =>
        rw [jSizeElems_cons_eq] at h ⊢
        have hx := ihV x (by omega)
        cases xs' with
        | nil =>
          rw [show jSizeElems [] = 0 from rfl,
            show jStrElems [x] = jStr x from rfl]
          omega
        | cons y ys =>
          rw [show jStrElems (x :: y :: ys) = jStr x ++ ',' :: jStrElems (y :: ys) from
            rfl]
          have hy := ihE (y :: ys) (by omega)
          simp only [List.length_append, List.length_cons]
          omega
    · cases fs with
      | nil => rw [show jSizeMembers [] = 0 from rfl]; omega
      | cons m fs' =>
        obtain ⟨k, v⟩ := m
        rw [jSizeMembers_cons_eq] at h ⊢
        have hv := ihV v (by omega)
        cases fs' with
        | nil =>
          rw [show jSizeMembers [] = 0 from rfl,
            show jStrMembers [(k, v)] = quoteStr k ++ ':' :: jStr v from rfl]
          simp only [List.length_append, List.length_cons]
          omega
        | cons m2 ms =>
          rw [show jStrMembers ((k, v) :: m2 :: ms) =
            quoteStr k ++ ':' :: jStr v ++ ',' :: jStrMembers (m2 :: ms) from rfl]
          have hms := ihM (m2 :: ms) (by omega)
          simp only [List.length_append, List.length_cons]
          omega

/-- `jsonParse` inverts `jsonStringify` on every well-formed value: the
round trip is the identity. -/
theorem jsonParse_jsonStringify (v : Json) (hw : jWF v = true) :
    jsonParse (jsonStringify v) = some v := by
  have hsz : jSize v ≤ (jStr v).length := (jSize_le_jStr (jSize v)).1 v le_rfl
  have h := (parse_inverts_jStr ((jStr v).length + 1)).1 v [] hw (by omega) numBoundary_nil
  rw [List.append_nil] at h
  have hdata : (jsonStringify v).data = jStr v := rfl
  rw [jsonParse, hdata, h]
  simp only []
  rw [if_pos (show skipWs [] = [] from rfl)]

/-! ## JavaScript string primitives used by the library -/

/-- JavaScript whitespace: the characters stripped by
`String.prototype.trim` (ASCII whitespace plus NBSP, BOM and the
line/paragraph separators). -/
def isJsWs (c : Char) : Bool :=
  c = ' ' || c = '\t' || c = '\n' || c = '\r' || c.toNat = 11 || c.toNat = 12 ||
    c.toNat = 0xa0 || c.toNat = 0xfeff || c.toNat = 0x2028 || c.toNat = 0x2029

/-- `String.prototype.trim`. -/
def jsTrim (l : List Char) : List Char :=
  ((l.dropWhile isJsWs).reverse.dropWhile isJsWs).reverse

/-- `String.prototype.toUpperCase`, restricted to the ASCII mapping (every
string the library upper-cases in the verified claims is ASCII). -/
def jsUpper (s : String) : String := ⟨s.data.map Char.toUpper⟩

/-- Does the character list `s` start with `p`
(`String.prototype.startsWith`)? -/
def strStarts : List Char → List Char → Bool
  | [], _ => true
  | _ :: _, [] => false
  | p :: ps, c :: cs => p = c && strStarts ps cs

/-- `String.prototype.split` with a one-character separator (no limit):
always returns at least one group, and a separator at the end yields a
trailing empty group, exactly as in JavaScript. -/
def splitCh (sep : Char) : List Char → List (List Char)
  | [] => [[]]
  | c :: cs =>
    if c = sep then [] :: splitCh sep cs
    else
      match splitCh sep cs with
      | [] => [[c]]
      | g :: gs => (c :: g) :: gs

/-- `Array.prototype.join` with a one-character separator. -/
def joinSep (sep : Char) : List (List Char) → List Char
  | [] => []
  | [x] => x
  | x :: y :: xs => x ++ sep :: joinSep sep (y :: xs)

/-! ## types.ts: constants and type guards -/

/-- `WOLS_VERSION` (types.ts). -/
def WOLS_VERSION : String := "1.2.0"

/-- `WOLS_CONTEXT` (types.ts). -/
def WOLS_CONTEXT : String := "https://wemush.com/wols/v1"

/-- `SPECIMEN_TYPES` (types.ts). -/
def SPECIMEN_TYPES : List String :=
  ["CULTURE", "SPAWN", "SUBSTRATE", "FRUITING", "HARVEST"]

/-- `GROWTH_STAGES` (types.ts). -/
def GROWTH_STAGES : List String :=
  ["INOCULATION", "INCUBATION", "COLONIZATION", "PRIMORDIA", "FRUITING",
   "SENESCENCE", "HARVEST"]

/-- `isSpecimenType` applied to a runtime value (`typeof value === 'string'`
and membership in `SPECIMEN_TYPES`). -/
def isSpecimenTypeJ : Json → Bool
  | .str s => SPECIMEN_TYPES.contains s
  | _ => false

/-- `isSpecimenType` on a value statically known to be a string. -/
def isSpecimenTypeStr (s : String) : Bool := SPECIMEN_TYPES.contains s

/-- `isGrowthStage` applied to a runtime value. -/
def isGrowthStageJ : Json → Bool
  | .str s => GROWTH_STAGES.contains s
  | _ => false

/-! ## utils/iso8601.ts and the JavaScript Date constructor

`isValidISO8601` first tests `ISO8601_REGEX` and then checks that
`new Date(value)` yields a valid date; `toCompactUrl` feeds
`specimen.created` to `new Date` directly.  `jsDateMs` below models
`new Date(s).getTime()` for the whole Date Time String Format grammar of
ECMA-262 (date-only forms included), with `none` for Invalid Date.
Strings outside that grammar have implementation-defined `Date` behavior
and are modeled as Invalid Date; a date-time without a UTC offset is
interpreted in the host time zone, which the model fixes to UTC. -/

/-- Numeric value of a decimal digit character. -/
def digVal (c : Char) : Nat := c.toNat - 48

/-- Value of a two-digit group. -/
def dig2 (a b : Char) : Nat := digVal a * 10 + digVal b

/-- Proleptic Gregorian leap-year rule. -/
def isLeap (y : Int) : Bool := y % 4 = 0 && (y % 100 ≠ 0 || y % 400 = 0)

/-- Number of days in a month. -/
def daysInMonth (y : Int) (m : Nat) : Nat :=
  if m = 2 then (if isLeap y then 29 else 28)
  else if m = 4 || m = 6 || m = 9 || m = 11 then 30 else 31

/-- The optional fractional-seconds group `(?:\.\d\x7b1,3\x7d)?`: returns the
fraction digits (possibly none) and the remaining characters. -/
def isoFrac : List Char → Option (List Char × List Char)
  | '.' :: rest =>
    let p := takeDigits rest
    if p.1.isEmpty || decide (3 < p.1.length) then none else some (p.1, p.2)
  | rest => some (([] : List Char), rest)

/-- The timezone group `(?:Z|[+-]\d\x7b2\x7d:\d\x7b2\x7d)$`, with the offset
range check applied by the `Date` parser; returns the offset in minutes. -/
def isoZone : List Char → Option Int
  | ['Z'] => some 0
  | [sg, h1, h2, ':', m1, m2] =>
    if (sg = '+' || sg = '-') && isDig h1 && isDig h2 && isDig m1 && isDig m2 then
      let hh := dig2 h1 h2
      let mm := dig2 m1 m2
      if hh ≤ 23 && mm ≤ 59 then
        some (if sg = '-' then -((hh * 60 + mm : Nat) : Int) else ((hh * 60 + mm : Nat) : Int))
      else none
    else none
  | _ => none

/-- Days between 1970-01-01 and the given civil date (Howard Hinnant
civil-from-days algorithm, as used by every epoch-based clock). -/
def daysFromCivil (y : Int) (m d : Nat) : Int :=
  let y2 : Int := if m ≤ 2 then y - 1 else y
  let era : Int := (if 0 ≤ y2 then y2 else y2 - 399) / 400
  let yoe : Int := y2 - era * 400
  let mp : Int := if 2 < m then (m : Int) - 3 else (m : Int) + 9
  let doy : Int := (153 * mp + 2) / 5 + (d : Int) - 1
  let doe : Int := yoe * 365 + yoe / 4 - yoe / 100 + doy
  era * 146097 + doe - 719468

/-- Milliseconds denoted by a 1-3 digit fraction group. -/
def fracMs (ds : List Char) : Nat :=
  if ds.length = 1 then digitsToNat ds * 100
  else if ds.length = 2 then digitsToNat ds * 10
  else digitsToNat ds

/-- The year group of the Date Time String Format: four digits, or a sign
with six digits (expanded years; `-000000` is invalid). -/
def parseYear : List Char → Option (Int × List Char)
  | '+' :: y1 :: y2 :: y3 :: y4 :: y5 :: y6 :: rest =>
    if [y1, y2, y3, y4, y5, y6].all isDig then
      some ((digitsToNat [y1, y2, y3, y4, y5, y6] : Int), rest)
    else none
  | '-' :: y1 :: y2 :: y3 :: y4 :: y5 :: y6 :: rest =>
    if [y1, y2, y3, y4, y5, y6].all isDig then
      let n := digitsToNat [y1, y2, y3, y4, y5, y6]
      if n = 0 then none else some (-(n : Int), rest)
    else none
  | y1 :: y2 :: y3 :: y4 :: rest =>
    if isDig y1 && isDig y2 && isDig y3 && isDig y4 then
      some ((digitsToNat [y1, y2, y3, y4] : Int), rest)
    else none
  | _ => none

/-- The optional `-MM` and `-DD` groups; omitted groups default to 01. -/
def parseMonthDay : List Char → Option (Nat × Nat × List Char)
  | '-' :: m1 :: m2 :: rest =>
    if isDig m1 && isDig m2 then
      match rest with
      | '-' :: d1 :: d2 :: rest2 =>
        if isDig d1 && isDig d2 then some (dig2 m1 m2, dig2 d1 d2, rest2)
        else none
      | rest2 => some (dig2 m1 m2, 1, rest2)
    else none
  | rest => some (1, 1, rest)

/-- The optional timezone at the end of a time group: absent (`none` inside
`some`) means host local time, otherwise the offset in minutes. -/
def parseZoneOpt : List Char → Option (Option Int)
  | [] => some none
  | l => (isoZone l).map some

/-- The time group `THH:mm[:ss[.sss]]` with its optional timezone:
hours, minutes, seconds, milliseconds and the offset. -/
def parseTimePart : List Char → Option (Nat × Nat × Nat × Nat × Option Int)
  | 'T' :: h1 :: h2 :: ':' :: m1 :: m2 :: rest =>
    if isDig h1 && isDig h2 && isDig m1 && isDig m2 then
      match rest with
      | ':' :: s1 :: s2 :: rest2 =>
        if isDig s1 && isDig s2 then
          match isoFrac rest2 with
          | none => none
          | some (frac, zrest) =>
            (parseZoneOpt zrest).map
              (fun off => (dig2 h1 h2, dig2 m1 m2, dig2 s1 s2, fracMs frac, off))
        else none
      | rest2 =>
        (parseZoneOpt rest2).map (fun off => (dig2 h1 h2, dig2 m1 m2, 0, 0, off))
    else none
  | _ => none

/-- `new Date(s).getTime()`: epoch milliseconds for a string of the
ECMA-262 Date Time String Format, `none` for Invalid Date (NaN).
Date-only forms denote UTC midnight; a date-time without an offset is
host-local time, with the host zone fixed to UTC in the model; values
beyond the `\xb1`8,640,000,000,000,000 ms range are invalid. -/
def jsDateMs (s : String) : Option Int :=
  match parseYear s.data with
  | none => none
  | some (y, rest1) =>
    match parseMonthDay rest1 with
    | none => none
    | some (mo, dd, rest2) =>
      if 1 ≤ mo && mo ≤ 12 && 1 ≤ dd && dd ≤ daysInMonth y mo then
        let base := daysFromCivil y mo dd * 86400000
        match rest2 with
        | [] => if base.natAbs ≤ 8640000000000000 then some base else none
        | _ =>
          match parseTimePart rest2 with
          | none => none
          | some (hh, mi, se, ms, off) =>
            if mi ≤ 59 && se ≤ 59 &&
                (hh ≤ 23 || (hh = 24 && mi = 0 && se = 0 && ms = 0)) then
              let v := base + (hh : Int) * 3600000 + (mi : Int) * 60000 +
                (se : Int) * 1000 + (ms : Int) - (off.getD 0) * 60000
              if v.natAbs ≤ 8640000000000000 then some v else none
            else none
      else none

/-- `ISO8601_REGEX` (utils/iso8601.ts):
`^\d\x7b4\x7d-\d\x7b2\x7d-\d\x7b2\x7dT\d\x7b2\x7d:\d\x7b2\x7d:\d\x7b2\x7d(?:\.\d\x7b1,3\x7d)?(?:Z|[+-]\d\x7b2\x7d:\d\x7b2\x7d)$`. -/
def iso8601Shape (l : List Char) : Bool :=
  match l with
  | y1 :: y2 :: y3 :: y4 :: '-' :: o1 :: o2 :: '-' :: a1 :: a2 :: 'T' ::
      h1 :: h2 :: ':' :: i1 :: i2 :: ':' :: e1 :: e2 :: rest =>
    isDig y1 && isDig y2 && isDig y3 && isDig y4 && isDig o1 && isDig o2 &&
    isDig a1 && isDig a2 && isDig h1 && isDig h2 && isDig i1 && isDig i2 &&
    isDig e1 && isDig e2 &&
    (match isoFrac rest with
     | none => false
     | some (_, zrest) =>
       match zrest with
       | ['Z'] => true
       | [sg, z1, z2, ':', z3, z4] =>
         (sg = '+' || sg = '-') && isDig z1 && isDig z2 && isDig z3 && isDig z4
       | _ => false)
  | _ => false

/-- `isValidISO8601` (utils/iso8601.ts): the regex test, then a parseable
date. -/
def isValidISO8601 (s : String) : Bool := iso8601Shape s.data && (jsDateMs s).isSome

/-! ## validator.ts: validation patterns and field validators

Validation errors and warnings are modeled with their `path` and `code`
fields; the human-readable `message` (and warning `suggestion`) strings are
not modeled, since no verified claim mentions them.  A field value of
`none` models a JavaScript `undefined` property. -/

/-- `SPECIMEN_ID_PATTERN`: `^wemush:[a-z0-9]+$`. -/
def SPECIMEN_ID_PATTERN (s : String) : Bool :=
  match s.data with
  | 'w' :: 'e' :: 'm' :: 'u' :: 's' :: 'h' :: ':' :: rest =>
    !rest.isEmpty && rest.all (fun c => ('a' ≤ c && c ≤ 'z') || ('0' ≤ c && c ≤ '9'))
  | _ => false

/-- `SEMVER_PATTERN`: `^\d+\.\d+\.\d+$`. -/
def SEMVER_PATTERN (s : String) : Bool :=
  let p1 := takeDigits s.data
  if p1.1.isEmpty then false
  else
    match p1.2 with
    | '.' :: r1 =>
      let p2 := takeDigits r1
      if p2.1.isEmpty then false
      else
        match p2.2 with
        | '.' :: r2 =>
          let p3 := takeDigits r2
          !p3.1.isEmpty && p3.2.isEmpty
        | _ => false
    | _ => false

/-- `GENERATION_PATTERN`: `^(P|F\d+)$`. -/
def GENERATION_PATTERN (s : String) : Bool :=
  match s.data with
  | c :: rest =>
    if c = 'P' then rest.isEmpty
    else if c = 'F' then !rest.isEmpty && rest.all isDig
    else false
  | [] => false

/-- `KNOWN_FIELDS` (validator.ts): the fields the unknown-field check
recognizes. -/
def KNOWN_FIELDS : List String :=
  ["@context", "@type", "id", "version", "type", "species", "strain", "stage",
   "created", "batch", "organization", "creator", "custom", "signature"]

/-- A validation error (`path` and stable `code`). -/
structure ValidationError where
  path : String
  code : String
deriving DecidableEq

/-- A validation warning (`path` and stable `code`). -/
structure ValidationWarning where
  path : String
  code : String
deriving DecidableEq

/-- The `level` validation option. -/
inductive VLevel where
  | strict
  | lenient
deriving DecidableEq

/-- The `idMode` validation option (types.ts, v1.2.0). -/
inductive IdMode where
  | strict
  | ulid
  | uuid
  | any
deriving DecidableEq

/-- `ValidationOptions` (types.ts); a `none` field models an omitted
property. -/
structure ValidationOptions where
  allowUnknownFields : Option Bool := none
  level : Option VLevel := none
  idMode : Option IdMode := none
  customIdValidator : Option (String → Bool) := none

/-- `ValidationResult`. -/
structure ValidationResult where
  valid : Bool
  errors : List ValidationError
  warnings : List ValidationWarning

/-- `isNonEmptyString`: a string whose trimmed length is positive. -/
def isNonEmptyStringJ : Json → Bool
  | .str s => !(jsTrim s.data).isEmpty
  | _ => false

/-- `isPlainObject`: a non-null non-array object. -/
def isPlainObjectJ : Json → Bool
  | .obj _ => true
  | _ => false

/-- `validateContext`. -/
def validateContext : Option Json → List ValidationError
  | none => [⟨"@context", "WOLS_INVALID_CONTEXT"⟩]
  | some .null => [⟨"@context", "WOLS_INVALID_CONTEXT"⟩]
  | some (.str s) =>
    if s = WOLS_CONTEXT then [] else [⟨"@context", "WOLS_INVALID_CONTEXT"⟩]
  | some _ => [⟨"@context", "WOLS_INVALID_CONTEXT"⟩]

/-- `validateType`. -/
def validateType : Option Json → List ValidationError
  | none => [⟨"@type", "WOLS_INVALID_TYPE"⟩]
  | some .null => [⟨"@type", "WOLS_INVALID_TYPE"⟩]
  | some (.str s) =>
    if s = "Specimen" then [] else [⟨"@type", "WOLS_INVALID_TYPE"⟩]
  | some _ => [⟨"@type", "WOLS_INVALID_TYPE"⟩]

/-- `validateId`.  The `_o` parameter mirrors the ignored `_options`
parameter of the source: the id check depends only on
`SPECIMEN_ID_PATTERN`, never on `idMode` or `customIdValidator`. -/
def validateId (v : Option Json) (_o : ValidationOptions) : List ValidationError :=
  match v with
  | none => [⟨"id", "WOLS_REQUIRED_FIELD"⟩]
  | some .null => [⟨"id", "WOLS_REQUIRED_FIELD"⟩]
  | some (.str s) =>
    if SPECIMEN_ID_PATTERN s then [] else [⟨"id", "WOLS_INVALID_ID_FORMAT"⟩]
  | some _ => [⟨"id", "WOLS_INVALID_ID_FORMAT"⟩]

/-- `validateVersion`. -/
def validateVersion : Option Json → List ValidationError
  | none => [⟨"version", "WOLS_REQUIRED_FIELD"⟩]
  | some .null => [⟨"version", "WOLS_REQUIRED_FIELD"⟩]
  | some (.str s) =>
    if SEMVER_PATTERN s then [] else [⟨"version", "WOLS_INVALID_VERSION"⟩]
  | some _ => [⟨"version", "WOLS_INVALID_VERSION"⟩]

/-- `validateSpecimenType`. -/
def validateSpecimenType : Option Json → List ValidationError
  | none => [⟨"type", "WOLS_REQUIRED_FIELD"⟩]
  | some .null => [⟨"type", "WOLS_REQUIRED_FIELD"⟩]
  | some v =>
    if isSpecimenTypeJ v then [] else [⟨"type", "WOLS_INVALID_SPECIMEN_TYPE"⟩]

/-- `validateSpecies`. -/
def validateSpecies : Option Json → List ValidationError
  | none => [⟨"species", "WOLS_REQUIRED_FIELD"⟩]
  | some .null => [⟨"species", "WOLS_REQUIRED_FIELD"⟩]
  | some v =>
    if isNonEmptyStringJ v then [] else [⟨"species", "WOLS_REQUIRED_FIELD"⟩]

/-- `validateStage`: errors and warnings it pushes, by level. -/
def validateStage (v : Option Json) (level : VLevel) :
    List ValidationError × List ValidationWarning :=
  match v with
  | none => ([], [])
  | some .null => ([], [])
  | some v =>
    if isGrowthStageJ v then ([], [])
    else
      match level with
      | .lenient => ([], [⟨"stage", "UNKNOWN_GROWTH_STAGE"⟩])
      | .strict => ([⟨"stage", "INVALID_GROWTH_STAGE"⟩], [])

/-- `validateCreated`: errors and warnings it pushes, by level. -/
def validateCreated (v : Option Json) (level : VLevel) :
    List ValidationError × List ValidationWarning :=
  match v with
  | none => ([], [])
  | some .null => ([], [])
  | some (.str s) =>
    if isValidISO8601 s then ([], [])
    else
      match level with
      | .lenient => ([], [⟨"created", "WOLS_INVALID_DATE_FORMAT"⟩])
      | .strict => ([⟨"created", "WOLS_INVALID_DATE_FORMAT"⟩], [])
  | some _ => ([⟨"created", "WOLS_INVALID_DATE_FORMAT"⟩], [])

/-- The `strain.name` requirement inside `validateStrain`. -/
def strainNameErrs (fs : List (String × Json)) : List ValidationError :=
  match objGet fs "name" with
  | some v => if isNonEmptyStringJ v then [] else [⟨"strain.name", "WOLS_REQUIRED_FIELD"⟩]
  | none => [⟨"strain.name", "WOLS_REQUIRED_FIELD"⟩]

/-- The `strain.generation` format check inside `validateStrain`: applied
when the property is defined, requiring a string matching
`GENERATION_PATTERN`. -/
def strainGenErrs (fs : List (String × Json)) : List ValidationError :=
  match objGet fs "generation" with
  | none => []
  | some (.str g) =>
    if GENERATION_PATTERN g then [] else [⟨"strain.generation", "WOLS_INVALID_GENERATION"⟩]
  | some _ => [⟨"strain.generation", "WOLS_INVALID_GENERATION"⟩]

/-- The `strain.clonalGeneration` check inside `validateStrain`.
`Json.num` carries an integer, so the `Number.isInteger` part is vacuous in
the model. -/
def strainClonalErrs (fs : List (String × Json)) : List ValidationError :=
  match objGet fs "clonalGeneration" with
  | none => []
  | some (.num n) =>
    if 1 ≤ n then [] else [⟨"strain.clonalGeneration", "WOLS_INVALID_FORMAT"⟩]
  | some _ => [⟨"strain.clonalGeneration", "WOLS_INVALID_FORMAT"⟩]

/-- The `strain.source` check inside `validateStrain`. -/
def strainSourceErrs (fs : List (String × Json)) : List ValidationError :=
  match objGet fs "source" with
  | none => []
  | some (.str _) => []
  | some _ => [⟨"strain.source", "WOLS_INVALID_FORMAT"⟩]

/-- The `strain.lineage` check inside `validateStrain`. -/
def strainLineageErrs (fs : List (String × Json)) : List ValidationError :=
  match objGet fs "lineage" with
  | none => []
  | some (.str _) => []
  | some _ => [⟨"strain.lineage", "WOLS_INVALID_FORMAT"⟩]

/-- The per-field checks of `validateStrain` on a plain-object strain value,
in source order: name, generation, clonalGeneration, source, lineage. -/
def strainFieldErrors (fs : List (String × Json)) : List ValidationError :=
  strainNameErrs fs ++ strainGenErrs fs ++ strainClonalErrs fs ++
    strainSourceErrs fs ++ strainLineageErrs fs

/-- `validateStrain`. -/
def validateStrain : Option Json → List ValidationError
  | none => []
  | some .null => []
  | some (.obj fs) => strainFieldErrors fs
  | some _ => [⟨"strain", "WOLS_INVALID_FORMAT"⟩]

/-- `checkUnknownFields`: one warning per key outside `KNOWN_FIELDS`,
in key order, unless `allowUnknownFields` is set. -/
def checkUnknownFields (fields : List (String × Json)) (allowUnknown : Bool) :
    List ValidationWarning :=
  if allowUnknown then []
  else
    (fields.map Prod.fst).filterMap fun k =>
      if KNOWN_FIELDS.contains k then none else some ⟨k, "UNKNOWN_FIELD"⟩

/-- `validateSpecimen` (validator.ts).  The source resolves defaulted
options into a fresh `opts` record containing only `allowUnknownFields` and
`level`, and hands that record to every field validator; `idMode` and
`customIdValidator` are dropped at this point and never consulted.
An `undefined` top-level input is not representable as `Json`; `Json.null`
models the `null` input. -/
def validateSpecimen (specimen : Json) (options : ValidationOptions) : ValidationResult :=
  let allowUnknown := options.allowUnknownFields.getD false
  let level := options.level.getD .strict
  let opts : ValidationOptions :=
    { allowUnknownFields := some allowUnknown, level := some level }
  match specimen with
  | .null => ⟨false, [⟨"", "WOLS_REQUIRED_FIELD"⟩], []⟩
  | .obj fields =>
    let stageR := validateStage (objGet fields "stage") level
    let createdR := validateCreated (objGet fields "created") level
    let errors :=
      validateContext (objGet fields "@context") ++
      validateType (objGet fields "@type") ++
      validateId (objGet fields "id") opts ++
      validateVersion (objGet fields "version") ++
      validateSpecimenType (objGet fields "type") ++
      validateSpecies (objGet fields "species") ++
      stageR.1 ++ createdR.1 ++
      validateStrain (objGet fields "strain")
    let warnings := stageR.2 ++ createdR.2 ++ checkUnknownFields fields allowUnknown
    ⟨errors.isEmpty, errors, warnings⟩
  | _ => ⟨false, [⟨"", "WOLS_INVALID_FORMAT"⟩], []⟩

/-! ## types.ts: generation helper and the type-alias registry -/

/-- `GENERATION_PARSE_PATTERN`: `^(P|P1|F(\d+)|G(\d+)|(\d+))$/i`, applied by
`isValidGeneration` after upper-casing (so the case-insensitivity flag is
spent). -/
def GENERATION_PARSE_PATTERN (l : List Char) : Bool :=
  match l with
  | c :: rest =>
    if c = 'P' then (rest.isEmpty || rest = ['1'])
    else if c = 'F' then !rest.isEmpty && rest.all isDig
    else if c = 'G' then !rest.isEmpty && rest.all isDig
    else (c :: rest).all isDig
  | [] => false

/-- `isValidGeneration` (types.ts): trim, upper-case, test the parse
pattern. -/
def isValidGeneration (generation : String) : Bool :=
  GENERATION_PARSE_PATTERN ((jsTrim generation.data).map Char.toUpper)

/-- The built-in `TYPE_ALIAS_REGISTRY` entries (types.ts).  The registry is
a mutable `Map`; functions reading it take the current entry list as an
explicit argument, with first-match lookup (`Map` keys are unique). -/
def TYPE_ALIAS_REGISTRY : List (String × String) :=
  [("LIQUID_CULTURE", "CULTURE"), ("LC", "CULTURE"), ("AGAR", "CULTURE"),
   ("PETRI", "CULTURE"), ("SLANT", "CULTURE"), ("CULTURE_PLATE", "CULTURE"),
   ("GRAIN_SPAWN", "SPAWN"), ("SAWDUST_SPAWN", "SPAWN"), ("PLUG_SPAWN", "SPAWN"),
   ("DOWEL", "SPAWN"),
   ("BLOCK", "SUBSTRATE"), ("BAG", "SUBSTRATE"), ("BED", "SUBSTRATE"),
   ("LOG", "SUBSTRATE"), ("BUCKET", "SUBSTRATE"),
   ("FLUSH", "FRUITING"), ("PINNING", "FRUITING"), ("PRIMORDIA", "FRUITING"),
   ("FRUIT", "FRUITING"), ("FIRST_FLUSH", "FRUITING"),
   ("FRESH", "HARVEST"), ("DRIED", "HARVEST"), ("PROCESSED", "HARVEST"),
   ("EXTRACT", "HARVEST")]

/-- `Map.get` over a registry entry list. -/
def registryGet (reg : List (String × String)) (k : String) : Option String :=
  (reg.find? (fun p => p.1 = k)).map Prod.snd

/-- `resolveTypeAlias` (types.ts) over the registry state `reg`. -/
def resolveTypeAlias (reg : List (String × String)) (typeOrAlias : String) : String :=
  let upper := jsUpper typeOrAlias
  if SPECIMEN_TYPES.contains upper then upper
  else
    match registryGet reg upper with
    | some resolved => resolved
    | none => typeOrAlias

/-! ## The Specimen record

The TypeScript `Specimen` interface pins `@context` and `@type` to literal
types, so serialization always emits the two constants; the model
therefore stores the remaining thirteen data properties.  Field values are
kept as runtime `Json` values: TypeScript field types are compile-time
annotations that `parseSpecimen` realizes with unchecked casts, so the
runtime representation is exactly a JSON value.  An absent optional
property is `none`; `meta` models the `_meta` property. -/

structure Specimen where
  id : Json
  version : Json
  type : Json
  species : Json
  strain : Option Json := none
  stage : Option Json := none
  created : Option Json := none
  batch : Option Json := none
  organization : Option Json := none
  creator : Option Json := none
  custom : Option Json := none
  signature : Option Json := none
  meta : Option Json := none

/-- One key of the ordered serialization object, present only when the
field is defined. -/
def optField (k : String) : Option Json → List (String × Json)
  | none => []
  | some v => [(k, v)]

/-- The ordered property list `serializeSpecimen` builds: JSON-LD markers,
required fields, then each optional field in declared order, `_meta`
last. -/
def specimenFields (s : Specimen) : List (String × Json) :=
  ("@context", .str WOLS_CONTEXT) :: ("@type", .str "Specimen") ::
  ("id", s.id) :: ("version", s.version) :: ("type", s.type) ::
  ("species", s.species) ::
  (optField "strain" s.strain ++ optField "stage" s.stage ++
   optField "created" s.created ++ optField "batch" s.batch ++
   optField "organization" s.organization ++ optField "creator" s.creator ++
   optField "custom" s.custom ++ optField "signature" s.signature ++
   optField "_meta" s.meta)

/-- The ordered object `serializeSpecimen` passes to `JSON.stringify`. -/
def specimenJson (s : Specimen) : Json := .obj (specimenFields s)

/-- `serializeSpecimen` (specimen.ts): `JSON.stringify` of the ordered
object. -/
def serializeSpecimen (s : Specimen) : String := jsonStringify (specimenJson s)

/-- The `strain`/`stage` copy step of `parseSpecimen`: skipped when the
parsed property is `undefined` or `null`. -/
def skipNull : Option Json → Option Json
  | some .null => none
  | o => o

/-- `parseSpecimen` (parser.ts): `JSON.parse`, the plain-object check, full
validation, then field extraction.  Failures collapse to `none` (the source
wraps them in `ParseResult` errors; no verified claim inspects parse-error
contents).  Validation guarantees the four required properties are present,
so the final wildcard arm is unreachable. -/
def parseSpecimen (json : String) : Option Specimen :=
  match jsonParse json with
  | none => none
  | some parsed =>
    if !isPlainObjectJ parsed then none
    else if !(validateSpecimen parsed {}).valid then none
    else
      match parsed with
      | .obj data =>
        match objGet data "id", objGet data "version",
            objGet data "type", objGet data "species" with
        | some idv, some verv, some tyv, some spv =>
          some { id := idv, version := verv, type := tyv, species := spv,
                 strain := skipNull (objGet data "strain"),
                 stage := skipNull (objGet data "stage"),
                 created := objGet data "created",
                 batch := objGet data "batch",
                 organization := objGet data "organization",
                 creator := objGet data "creator",
                 custom := objGet data "custom",
                 signature := objGet data "signature",
                 meta := objGet data "_meta" }
        | _, _, _, _ => none
      | _ => none

/-! ## specimen.ts: expandStrain and createSpecimen -/

/-- `isStrain` (types.ts): a non-null object with a string `name`
property.  (`'name' in value` on an array is false for these keys, so
arrays fail the check.) -/
def isStrainJ : Json → Bool
  | .obj fs =>
    match objGet fs "name" with
    | some (.str _) => true
    | _ => false
  | _ => false

/-- `expandStrain` (specimen.ts): strings expand to `\x7b name \x7d`; other
values pass the `isStrain` guard or are dropped. -/
def expandStrain : Option Json → Option Json
  | none => none
  | some (.str s) => some (.obj [("name", .str s)])
  | some v => if isStrainJ v then some v else none

/-- `SpecimenInput` (types.ts).  `type` and `species` are declared plain
strings; the optional fields are runtime values as in `Specimen`. -/
structure SpecimenInput where
  type : String
  species : String
  strain : Option Json := none
  stage : Option Json := none
  batch : Option Json := none
  organization : Option Json := none
  creator : Option Json := none
  custom : Option Json := none
  meta : Option Json := none

/-- The error message thrown by `createSpecimen` for an unresolvable
type. -/
def invalidTypeMsg (t : String) : String :=
  "Invalid specimen type: \x27" ++ t ++
    "\x27. Must be one of: CULTURE, SPAWN, SUBSTRATE, FRUITING, HARVEST (or a registered alias)."

/-- `createSpecimen` (specimen.ts) over the alias-registry state `reg`.
`createSpecimenId()` draws a fresh cuid; the generated id body is passed in
as `genId`.  The `throw` is modeled as `Except.error`; it is the only
throw site in the function. -/
def createSpecimen (reg : List (String × String)) (genId : String)
    (input : SpecimenInput) : Except String Specimen :=
  let strain := expandStrain input.strain
  let resolvedType := resolveTypeAlias reg input.type
  if !isSpecimenTypeStr resolvedType then
    .error (invalidTypeMsg input.type)
  else
    .ok { id := .str genId, version := .str WOLS_VERSION,
          type := .str resolvedType, species := .str input.species,
          strain := strain, stage := input.stage, batch := input.batch,
          organization := input.organization, creator := input.creator,
          custom := input.custom, meta := input.meta }

/-! ## migration.ts: version comparison and the migration chain -/

/-- `parseVersion`: the anchored-prefix regex `^(\d+)\.(\d+)\.(\d+)` with
`parseInt` on each group (trailing characters are permitted). -/
def parseVersion (version : String) : Option (Nat × Nat × Nat) :=
  let p1 := takeDigits version.data
  if p1.1.isEmpty then none
  else
    match p1.2 with
    | '.' :: r1 =>
      let p2 := takeDigits r1
      if p2.1.isEmpty then none
      else
        match p2.2 with
        | '.' :: r2 =>
          let p3 := takeDigits r2
          if p3.1.isEmpty then none
          else some (digitsToNat p1.1, digitsToNat p2.1, digitsToNat p3.1)
        | _ => none
    | _ => none

/-- UTF-16 code units of a character (JavaScript string ordering compares
code units, so supplementary characters compare via their surrogates). -/
def utf16Units (c : Char) : List Nat :=
  if c.toNat < 0x10000 then [c.toNat]
  else [0xd800 + (c.toNat - 0x10000) / 0x400, 0xdc00 + (c.toNat - 0x10000) % 0x400]

/-- Strict lexicographic order on code-unit lists. -/
def unitsLt : List Nat → List Nat → Bool
  | [], [] => false
  | [], _ :: _ => true
  | _ :: _, [] => false
  | a :: as_, b :: bs => if a = b then unitsLt as_ bs else a < b

/-- JavaScript `a < b` on strings: UTF-16 code-unit lexicographic order. -/
def jsStrLt (a b : String) : Bool :=
  unitsLt (a.data.flatMap utf16Units) (b.data.flatMap utf16Units)

/-- `compareVersions` (migration.ts): numeric triple comparison, falling
back to string comparison when either side fails to parse. -/
def compareVersions (a b : String) : Int :=
  match parseVersion a, parseVersion b with
  | some pa, some pb =>
    if pa.1 ≠ pb.1 then (if pa.1 < pb.1 then -1 else 1)
    else if pa.2.1 ≠ pb.2.1 then (if pa.2.1 < pb.2.1 then -1 else 1)
    else if pa.2.2 ≠ pb.2.2 then (if pa.2.2 < pb.2.2 then -1 else 1)
    else 0
  | _, _ =>
    if jsStrLt a b then -1
    else if jsStrLt b a then 1
    else 0

/-- `isOutdated` on a version string. -/
def isOutdated (version : String) : Bool := compareVersions version WOLS_VERSION < 0

/-- A registered migration (`MigrationDefinition`): source and target
versions with the transformation handler. -/
structure Migration where
  mfrom : String
  mto : String
  handler : Json → Json

/-- `MIGRATION_REGISTRY.find(m ⇒ m.from === currentVersion)`. -/
def findFrom (reg : List Migration) (v : String) : Option Migration :=
  reg.find? (fun m => m.mfrom = v)

/-- The `migrate` error message for a stuck chain. -/
def noMigrationMsg (v : String) : String :=
  "No migration path from version " ++ v ++ " to " ++ WOLS_VERSION ++
    ". Register a migration using registerMigration()."

/-- The `while` loop of `migrate`, fuel-indexed (`none` models a
non-terminating chain, which in JavaScript would loop forever). -/
def migrateLoop (fuel : Nat) (reg : List Migration) (current : Json)
    (currentVersion : String) : Option (Except String Json) :=
  match fuel with
  | 0 => none
  | fuel + 1 =>
    if compareVersions currentVersion WOLS_VERSION < 0 then
      match findFrom reg currentVersion with
      | none => some (.error (noMigrationMsg currentVersion))
      | some m => migrateLoop fuel reg (m.handler current) m.mto
    else some (.ok current)

/-- `specimen.version` read as a string (the `Specimen` type guarantees a
string; theorems about `migrate` hypothesize the property shape). -/
def specVersion (s : Json) : String :=
  match s with
  | .obj fs =>
    match objGet fs "version" with
    | some (.str v) => v
    | _ => ""
  | _ => ""

/-- The own enumerable properties a JavaScript spread copies: an object
contributes its fields, strings and arrays contribute index-keyed entries,
and primitives contribute nothing. -/
def spreadFields : Json → List (String × Json)
  | .obj fs => fs
  | .str s => s.data.enum.map (fun p => ((⟨natChars p.1⟩ : String), Json.str ⟨[p.2]⟩))
  | .arr xs => xs.enum.map (fun p => ((⟨natChars p.1⟩ : String), p.2))
  | _ => []

/-- `\x7b...current, version: WOLS_VERSION\x7d`: spread plus overwrite, which
updates the key in place when present and appends it otherwise. -/
def setVersionCurrent (cur : Json) : Json :=
  .obj (objInsert (spreadFields cur) "version" (.str WOLS_VERSION))

/-- `migrate` (migration.ts) over the registry state `reg`: an up-to-date
specimen is returned unchanged; otherwise the chain loop runs and the
result version is forced to `WOLS_VERSION`. -/
def migrate (fuel : Nat) (reg : List Migration) (specimen : Json) :
    Option (Except String Json) :=
  if !isOutdated (specVersion specimen) then some (.ok specimen)
  else
    match migrateLoop fuel reg specimen (specVersion specimen) with
    | none => none
    | some (.error e) => some (.error e)
    | some (.ok current) => some (.ok (setVersionCurrent current))

/-- The `while` loop of `canMigrate`, fuel-indexed. -/
def canMigrateLoop (fuel : Nat) (reg : List Migration) (v : String) : Option Bool :=
  match fuel with
  | 0 => none
  | fuel + 1 =>
    if compareVersions v WOLS_VERSION < 0 then
      match findFrom reg v with
      | none => some false
      | some m => canMigrateLoop fuel reg m.mto
    else some true

/-- `canMigrate` (migration.ts). -/
def canMigrate (fuel : Nat) (reg : List Migration) (specimen : Json) : Option Bool :=
  if !isOutdated (specVersion specimen) then some false
  else canMigrateLoop fuel reg (specVersion specimen)

/-! ## compact-url.ts: species codes, URLSearchParams, compact URLs -/

/-- `SPECIES_CODES` (compact-url.ts): built-in code-to-species table.  The
table is mutable via `registerSpeciesCode`; the claims concern the built-in
state. -/
def SPECIES_CODES : List (String × String) :=
  [("POSTR", "Pleurotus ostreatus"), ("PCITRI", "Pleurotus citrinopileatus"),
   ("PDJAR", "Pleurotus djamor"), ("PERYN", "Pleurotus eryngii"),
   ("HERIN", "Hericium erinaceus"), ("GLUCI", "Ganoderma lucidum"),
   ("LPUDE", "Laetiporus pudens"), ("LLENC", "Lentinula edodes"),
   ("APOLY", "Agrocybe polyphylla"), ("STRUG", "Stropharia rugosoannulata")]

/-- `getSpeciesFromCode`. -/
def getSpeciesFromCode (code : String) : Option String :=
  (SPECIES_CODES.find? (fun p => p.1 = code)).map Prod.snd

/-- `getCodeFromSpecies`, via the reverse table `SPECIES_TO_CODE` (the
built-in species names are pairwise distinct, so first match equals the
source's last-write-wins reverse map). -/
def getCodeFromSpecies (species : String) : Option String :=
  (SPECIES_CODES.find? (fun p => p.2 = species)).map Prod.fst

/-- Characters `application/x-www-form-urlencoded` serialization leaves
unescaped. -/
def formSafe (c : Char) : Bool :=
  ('0' ≤ c && c ≤ '9') || ('a' ≤ c && c ≤ 'z') || ('A' ≤ c && c ≤ 'Z') ||
    c = '*' || c = '-' || c = '.' || c = '_'

/-- UTF-8 bytes of a character. -/
def utf8Bytes (c : Char) : List Nat :=
  let n := c.toNat
  if n < 0x80 then [n]
  else if n < 0x800 then [0xc0 + n / 0x40, 0x80 + n % 0x40]
  else if n < 0x10000 then
    [0xe0 + n / 0x1000, 0x80 + n / 0x40 % 0x40, 0x80 + n % 0x40]
  else
    [0xf0 + n / 0x40000, 0x80 + n / 0x1000 % 0x40, 0x80 + n / 0x40 % 0x40,
     0x80 + n % 0x40]

/-- Upper-case hexadecimal digit (percent-escapes use upper case). -/
def hexDigitUp (n : Nat) : Char :=
  if n < 10 then Char.ofNat (48 + n) else Char.ofNat (55 + n)

/-- A percent-escaped byte. -/
def pctByte (b : Nat) : List Char := ['%', hexDigitUp (b / 16), hexDigitUp (b % 16)]

/-- One character of form-urlencoded output: space becomes `+`, safe
characters pass through, everything else is percent-escaped UTF-8. -/
def formEncodeChar (c : Char) : List Char :=
  if c = ' ' then ['+']
  else if formSafe c then [c]
  else (utf8Bytes c).flatMap pctByte

/-- Form-urlencoded serialization of a string. -/
def formEncode (s : String) : List Char := s.data.flatMap formEncodeChar

/-- `URLSearchParams.set`: overwrite the first occurrence in place and drop
later ones, or append. -/
def paramsSet : List (String × String) → String → String → List (String × String)
  | [], k, v => [(k, v)]
  | (k2, v2) :: rest, k, v =>
    if k2 = k then (k, v) :: rest.filter (fun p => p.1 ≠ k)
    else (k2, v2) :: paramsSet rest k v

/-- `URLSearchParams.toString`. -/
def paramsToString (ps : List (String × String)) : List Char :=
  joinSep '&' (ps.map (fun p => formEncode p.1 ++ '=' :: formEncode p.2))

/-- One fuel-indexed step layer of form-urlencoded decoding.  `+` becomes
space and `%XX` escapes decode to the byte value; malformed escapes pass
through verbatim.  Percent-escaped bytes are mapped to code points directly
(Latin-1), whereas JavaScript decodes UTF-8 byte sequences: the two agree
on all ASCII data, and every string a verified claim decodes is ASCII. -/
def formDecodeF : Nat → List Char → List Char
  | 0, _ => []
  | _, [] => []
  | fuel + 1, c :: rest =>
    if c = '+' then ' ' :: formDecodeF fuel rest
    else if c = '%' then
      match rest with
      | h1 :: h2 :: rest2 =>
        match hexVal h1, hexVal h2 with
        | some a, some b => Char.ofNat (a * 16 + b) :: formDecodeF fuel rest2
        | _, _ => '%' :: formDecodeF fuel rest
      | _ => '%' :: formDecodeF fuel rest
    else c :: formDecodeF fuel rest

/-- Form-urlencoded decoding of a whole string.  Every step consumes at
least one character, so `length + 1` fuel never runs out. -/
def formDecode (l : List Char) : List Char := formDecodeF (l.length + 1) l

/-- Split a query segment at its first `=` (no `=` means empty value). -/
def splitFirstEq : List Char → List Char × List Char
  | [] => ([], [])
  | c :: rest =>
    if c = '=' then ([], rest)
    else
      let p := splitFirstEq rest
      (c :: p.1, p.2)

/-- `new URLSearchParams(query)`: split on `&`, drop empty segments, split
each at the first `=`, decode keys and values. -/
def parseQuery (q : List Char) : List (String × String) :=
  (splitCh '&' q).filterMap fun seg =>
    if seg.isEmpty then none
    else
      let p := splitFirstEq seg
      some (⟨formDecode p.1⟩, ⟨formDecode p.2⟩)

/-- `URLSearchParams.get`: first value for the key, `null` as `none`. -/
def searchGet (ps : List (String × String)) (k : String) : Option String :=
  (ps.find? (fun p => p.1 = k)).map Prod.snd

/-- `parseInt(s, 10)`: trim, optional sign, then a non-empty digit run
(trailing characters ignored); `none` models NaN. -/
def parseIntJs (s : String) : Option Int :=
  let naturally := fun (l : List Char) =>
    let p := takeDigits l
    if p.1.isEmpty then (none : Option Nat) else some (digitsToNat p.1)
  match jsTrim s.data with
  | '-' :: rest => (naturally rest).map (fun n => -(n : Int))
  | '+' :: rest => (naturally rest).map (fun n => (n : Int))
  | rest => (naturally rest).map (fun n => (n : Int))

/-- `Number.prototype.toString` on the numbers the library builds: decimal
digits for integers, `NaN` for NaN (modeled as `none`). -/
def jsNumToString : Option Int → String
  | none => "NaN"
  | some i => ⟨intChars i⟩

/-- The strain part of a `SpecimenRef`. -/
structure RefStrain where
  name : String
  generation : Option String := none
deriving DecidableEq

/-- `SpecimenRef` (types.ts): the reference decoded from a compact URL.
`timestamp` is a JavaScript number, so its value is `Option Int` with
`none` for NaN. -/
structure SpecimenRef where
  id : String
  species : String
  version : String
  type : Option String := none
  stage : Option String := none
  timestamp : Option (Option Int) := none
  batch : Option String := none
  strain : Option RefStrain := none
deriving DecidableEq

/-- Read a `Json` value whose TypeScript type is `string` (theorems
hypothesize the shape, so the default arm is never exercised there). -/
def jStrOf : Json → String
  | .str s => s
  | _ => ""

/-- Property access on a `Json` value. -/
def jProp (v : Json) (k : String) : Option Json :=
  match v with
  | .obj fs => objGet fs k
  | _ => none

/-- `specimen.id.replace(/^wemush:/, '')`. -/
def stripIdScheme (id : List Char) : List Char :=
  if strStarts "wemush:".data id then id.drop 7 else id

/-- `toCompactUrl` (compact-url.ts). -/
def toCompactUrl (s : Specimen) : String :=
  let idWithoutPrefix := stripIdScheme (jStrOf s.id).data
  let params1 := paramsSet [] "s"
    (match getCodeFromSpecies (jStrOf s.species) with
     | some code => code
     | none => jStrOf s.species)
  let params2 := paramsSet params1 "ty" (jStrOf s.type)
  let params3 :=
    match s.stage with
    | none => params2
    | some st => paramsSet params2 "st" (jStrOf st)
  let params4 :=
    match s.created with
    | none => params3
    | some cr =>
      paramsSet params3 "t"
        (jsNumToString ((jsDateMs (jStrOf cr)).map (fun ms => Int.fdiv ms 1000)))
  let params5 :=
    match s.batch with
    | none => params4
    | some b => paramsSet params4 "b" (jStrOf b)
  let params6 :=
    match s.strain.bind (fun st => jProp st "name") with
    | none => params5
    | some n => paramsSet params5 "sn" (jStrOf n)
  let params7 :=
    match s.strain.bind (fun st => jProp st "generation") with
    | none => params6
    | some g => paramsSet params6 "sg" (jStrOf g)
  let queryString := paramsToString params7
  "wemush://v1/" ++ (⟨idWithoutPrefix⟩ : String) ++
    (if queryString.isEmpty then "" else "?" ++ (⟨queryString⟩ : String))

/-- `parseCompactUrl` (compact-url.ts).  Error values carry the source
message (the `\x7b url \x7d` detail object is not modeled). -/
def parseCompactUrl (url : String) : Except String SpecimenRef :=
  if !strStarts "wemush://".data url.data then
    .error "URL must start with wemush://"
  else
    let withoutScheme := url.data.drop 9
    let parts := splitCh '?' withoutScheme
    let pathPart := parts.headD []
    let queryPart := parts.get? 1
    if pathPart.isEmpty then
      .error "Invalid compact URL format: missing path"
    else
      let pathSegments := splitCh '/' pathPart
      match pathSegments.get? 1 with
      | none => .error "Invalid compact URL format: missing specimen ID"
      | some idCs =>
        if idCs.isEmpty then
          .error "Invalid compact URL format: missing specimen ID"
        else
          let version := if pathSegments.headD [] = "v1".data then "1.1.0" else "1.0.0"
          let params := parseQuery (queryPart.getD [])
          match searchGet params "s" with
          | none => .error "Invalid compact URL format: missing species parameter"
          | some sp =>
            let species := (getSpeciesFromCode sp).getD sp
            .ok { id := "wemush:" ++ (⟨idCs⟩ : String),
                  species := species,
                  version := version,
                  type := searchGet params "ty",
                  stage := searchGet params "st",
                  timestamp := (searchGet params "t").map parseIntJs,
                  batch := searchGet params "b",
                  strain :=
                    match searchGet params "sn" with
                    | none => none
                    | some n => some ⟨n, searchGet params "sg"⟩ }

/-! ## Claim C8: compareVersions -/

theorem unitsLt_irrefl (l : List Nat) : unitsLt l l = false := by
  induction l with
  | nil => rfl
  | cons a as_ ih => simp [unitsLt, ih]

/-- C8: `compareVersions` compares leading numeric `major.minor.patch`
triples — `compareVersions("1.0.0","2.0.0") = -1`,
`compareVersions("1.9.0","2.0.0") = -1`,
`compareVersions("10.0.0","9.0.0") = 1`, and `compareVersions(v,v) = 0`
for every `v` (in particular every well-formed one); when either argument
fails to parse as a leading numeric triple, the result is the
lexicographic string comparison of the two arguments, never an error. -/
theorem compareVersions_spec :
    compareVersions "1.0.0" "2.0.0" = -1 ∧
    compareVersions "1.9.0" "2.0.0" = -1 ∧
    compareVersions "10.0.0" "9.0.0" = 1 ∧
    (∀ v : String, compareVersions v v = 0) ∧
    (∀ a b : String, parseVersion a = none ∨ parseVersion b = none →
      compareVersions a b =
        (if jsStrLt a b then -1 else if jsStrLt b a then 1 else 0)) := by
  refine ⟨by rfl, by rfl, by rfl, fun v => ?_, fun a b h => ?_⟩
  · rcases hv : parseVersion v with _ | p
    · simp [compareVersions, hv, jsStrLt, unitsLt_irrefl]
    · simp [compareVersions, hv]
  · rcases hA : parseVersion a with _ | pa <;> rcases hB : parseVersion b with _ | pb <;>
      simp [compareVersions, hA, hB] at h ⊢

/-- Witness for C8 at a malformed left argument. -/
theorem compareVersions_spec_witness :
    (parseVersion "abc" = none ∨ parseVersion "1.0.0" = none) ∧
    compareVersions "abc" "1.0.0" =
      (if jsStrLt "abc" "1.0.0" then -1 else if jsStrLt "1.0.0" "abc" then 1 else 0) :=
  ⟨Or.inl rfl, compareVersions_spec.2.2.2.2 "abc" "1.0.0" (Or.inl rfl)⟩

/-! ## Claim C10: createSpecimen type resolution -/

/-- C10: `createSpecimen` throws exactly when the input type fails to
resolve to a canonical specimen type through `resolveTypeAlias` (the error
message naming the offending input type), and otherwise returns a specimen
whose `type` is the canonical resolved type; its only throw site is the
type check, so an error implies an unresolvable type. -/
theorem createSpecimen_type_resolution :
    (∀ reg genId input, isSpecimenTypeStr (resolveTypeAlias reg input.type) = false →
      createSpecimen reg genId input = .error (invalidTypeMsg input.type)) ∧
    (∀ reg genId input, isSpecimenTypeStr (resolveTypeAlias reg input.type) = true →
      ∃ s, createSpecimen reg genId input = .ok s ∧
        s.type = .str (resolveTypeAlias reg input.type)) ∧
    (∀ reg genId input e, createSpecimen reg genId input = .error e →
      e = invalidTypeMsg input.type ∧
        isSpecimenTypeStr (resolveTypeAlias reg input.type) = false) := by
  refine ⟨fun reg genId input h => ?_, fun reg genId input h => ?_,
    fun reg genId input e h => ?_⟩
  · simp [createSpecimen, h]
  · refine ⟨Specimen.mk (.str genId) (.str WOLS_VERSION)
      (.str (resolveTypeAlias reg input.type)) (.str input.species)
      (expandStrain input.strain) input.stage none input.batch
      input.organization input.creator input.custom none input.meta, ?_, rfl⟩
    rw [createSpecimen, h]
    rfl
  · rw [createSpecimen] at h
    rcases hr : isSpecimenTypeStr (resolveTypeAlias reg input.type) with _ | _
    · rw [hr] at h
      simp at h
      exact ⟨h.symm, rfl⟩
    · rw [hr] at h
      simp at h

/-- Witness for C10: the built-in alias `LC` resolves to `CULTURE`, and an
unregistered type string raises the naming error. -/
theorem createSpecimen_type_resolution_witness :
    isSpecimenTypeStr (resolveTypeAlias TYPE_ALIAS_REGISTRY "LC") = true ∧
    (∃ s, createSpecimen TYPE_ALIAS_REGISTRY "c1abc"
        { type := "LC", species := "Pleurotus ostreatus" } = .ok s ∧
      s.type = .str (resolveTypeAlias TYPE_ALIAS_REGISTRY "LC")) ∧
    isSpecimenTypeStr (resolveTypeAlias TYPE_ALIAS_REGISTRY "mycelium") = false ∧
    createSpecimen TYPE_ALIAS_REGISTRY "c1abc"
        { type := "mycelium", species := "Pleurotus ostreatus" } =
      .error (invalidTypeMsg "mycelium") :=
  ⟨rfl,
   createSpecimen_type_resolution.2.1 TYPE_ALIAS_REGISTRY "c1abc"
     { type := "LC", species := "Pleurotus ostreatus" } rfl,
   rfl,
   createSpecimen_type_resolution.1 TYPE_ALIAS_REGISTRY "c1abc"
     { type := "mycelium", species := "Pleurotus ostreatus" } rfl⟩

/-! ## Claim C5: migrate and canMigrate -/

theorem objGet_append_last (fs : List (String × Json)) (k : String) (v : Json)
    (h : fs.any (fun p => p.1 = k) = false) :
    objGet (fs ++ [(k, v)]) k = some v := by
  induction fs with
  | nil => simp [objGet]
  | cons p rest ih =>
    simp only [List.any_cons, Bool.or_eq_false_iff, decide_eq_false_iff_not] at h
    simp only [List.cons_append, objGet, if_neg h.1]
    exact ih h.2

theorem objGet_map_overwrite (fs : List (String × Json)) (k : String) (v : Json)
    (h : fs.any (fun p => p.1 = k) = true) :
    objGet (fs.map (fun p => if p.1 = k then (k, v) else p)) k = some v := by
  induction fs with
  | nil => simp at h
  | cons p rest ih =>
    simp only [List.map_cons]
    by_cases hp : p.1 = k
    · rw [if_pos hp]
      simp [objGet]
    · rw [if_neg hp]
      simp only [objGet, if_neg hp]
      apply ih
      simpa [List.any_cons, hp] using h

/-- Overwriting insertion always makes the key readable with the new
value. -/
theorem objGet_objInsert (fs : List (String × Json)) (k : String) (v : Json) :
    objGet (objInsert fs k v) k = some v := by
  rw [objInsert]
  rcases ha : fs.any (fun p => p.1 = k) with _ | _
  · rw [if_neg (by simp [ha])]
    exact objGet_append_last fs k v ha
  · rw [if_pos (by simp [ha])]
    exact objGet_map_overwrite fs k v ha

/-- One unfolding of the `migrate` while loop. -/
theorem migrateLoop_succ (fuel : Nat) (reg : List Migration) (cur : Json) (v : String) :
    migrateLoop (fuel + 1) reg cur v =
      if compareVersions v WOLS_VERSION < 0 then
        match findFrom reg v with
        | none => some (.error (noMigrationMsg v))
        | some m => migrateLoop fuel reg (m.handler cur) m.mto
      else some (.ok cur) := rfl

/-- One unfolding of the `canMigrate` while loop. -/
theorem canMigrateLoop_succ (fuel : Nat) (reg : List Migration) (v : String) :
    canMigrateLoop (fuel + 1) reg v =
      if compareVersions v WOLS_VERSION < 0 then
        match findFrom reg v with
        | none => some false
        | some m => canMigrateLoop fuel reg m.mto
      else some true := rfl

/-- C5: a specimen not older than the library version is returned unchanged
by `migrate` with `canMigrate` false; when the exact-match chain lookup is
stuck at the starting version (in particular with an empty registry),
`migrate` raises the `No migration path` error naming the stuck and target
versions and `canMigrate` is false; the loop applies handlers in chain
order, stepping from each version to the found migration target; and every
successful migration of an outdated specimen carries `version =
WOLS_VERSION`, whether or not any handler set it. -/
theorem migrate_version_policy :
    (∀ fuel reg s, isOutdated (specVersion s) = false →
      migrate fuel reg s = some (.ok s) ∧ canMigrate fuel reg s = some false) ∧
    (∀ fuel reg s, isOutdated (specVersion s) = true →
      findFrom reg (specVersion s) = none →
      migrate (fuel + 1) reg s = some (.error (noMigrationMsg (specVersion s))) ∧
      canMigrate (fuel + 1) reg s = some false) ∧
    (∀ fuel reg cur v m, compareVersions v WOLS_VERSION < 0 →
      findFrom reg v = some m →
      migrateLoop (fuel + 1) reg cur v = migrateLoop fuel reg (m.handler cur) m.mto) ∧
    (∀ fuel reg s r, isOutdated (specVersion s) = true →
      migrate fuel reg s = some (.ok r) →
      jProp r "version" = some (.str WOLS_VERSION)) := by
  refine ⟨fun fuel reg s h => ⟨?_, ?_⟩, fun fuel reg s ho hf => ⟨?_, ?_⟩,
    fun fuel reg cur v m hc hm => ?_, fun fuel reg s r ho hm => ?_⟩
  · rw [migrate, h]
    rfl
  · rw [canMigrate, h]
    rfl
  · have hcmp : compareVersions (specVersion s) WOLS_VERSION < 0 := by
      simpa [isOutdated] using ho
    rw [migrate, ho]
    simp only [Bool.not_true, Bool.false_eq_true, if_false]
    rw [migrateLoop_succ, if_pos hcmp, hf]
  · have hcmp : compareVersions (specVersion s) WOLS_VERSION < 0 := by
      simpa [isOutdated] using ho
    rw [canMigrate, ho]
    simp only [Bool.not_true, Bool.false_eq_true, if_false]
    rw [canMigrateLoop_succ, if_pos hcmp, hf]
  · rw [migrateLoop_succ, if_pos hc, hm]
  · rw [migrate, ho] at hm
    simp only [Bool.not_true, Bool.false_eq_true, if_false] at hm
    rcases hl : migrateLoop fuel reg s (specVersion s) with _ | er
    · rw [hl] at hm
      exact absurd hm (by simp)
    · rcases er with e | cur
      · rw [hl] at hm
        simp at hm
      · rw [hl] at hm
        have hr : setVersionCurrent cur = r := by
          have := hm
          simp at this
          exact this
        rw [← hr, setVersionCurrent]
        exact objGet_objInsert (spreadFields cur) "version" (.str WOLS_VERSION)

/-- Witness for C5 on a concrete outdated specimen and the empty registry,
and a concrete up-to-date specimen. -/
theorem migrate_version_policy_witness :
    isOutdated (specVersion (.obj [("version", .str "1.0.0")])) = true ∧
    findFrom [] (specVersion (.obj [("version", .str "1.0.0")])) = none ∧
    migrate 1 [] (.obj [("version", .str "1.0.0")]) =
      some (.error (noMigrationMsg "1.0.0")) ∧
    canMigrate 1 [] (.obj [("version", .str "1.0.0")]) = some false ∧
    isOutdated (specVersion (.obj [("version", .str "1.2.0")])) = false ∧
    migrate 5 [] (.obj [("version", .str "1.2.0")]) =
      some (.ok (.obj [("version", .str "1.2.0")])) := by
  refine ⟨by rfl, by rfl, ?_, ?_, by rfl, ?_⟩
  · exact (migrate_version_policy.2.1 0 [] (.obj [("version", .str "1.0.0")])
      (by rfl) (by rfl)).1
  · exact (migrate_version_policy.2.1 0 [] (.obj [("version", .str "1.0.0")])
      (by rfl) (by rfl)).2
  · exact (migrate_version_policy.1 5 [] (.obj [("version", .str "1.2.0")]) (by rfl)).1

/-! ## Claim C1: the idMode and customIdValidator options -/

/-- The record from the id-mode claim: valid in every field except that the
id suffix `01ARZ3NDEKTSV4RRFFQ69G5FAV` contains upper-case letters. -/
def ulidSpecimen : Json :=
  .obj [("@context", .str WOLS_CONTEXT), ("@type", .str "Specimen"),
        ("id", .str "wemush:01ARZ3NDEKTSV4RRFFQ69G5FAV"),
        ("version", .str "1.2.0"), ("type", .str "CULTURE"),
        ("species", .str "Pleurotus ostreatus")]

/-- C1: contrary to the documented id-mode semantics, `validateSpecimen`
ignores `idMode` and `customIdValidator` entirely — its result depends only
on `allowUnknownFields` and `level` — so the ULID-suffixed record is
rejected under `idMode: ulid`, under `idMode: any`, and under every custom
validator alike, because the fixed strict pattern `wemush:[a-z0-9]+`
rejects the upper-case suffix. -/
theorem validateSpecimen_ignores_idMode :
    (∀ s o, validateSpecimen s o =
      validateSpecimen s { allowUnknownFields := o.allowUnknownFields, level := o.level }) ∧
    (validateSpecimen ulidSpecimen { idMode := some IdMode.ulid }).valid = false ∧
    (validateSpecimen ulidSpecimen { idMode := some IdMode.any }).valid = false ∧
    (∀ f, (validateSpecimen ulidSpecimen { customIdValidator := some f }).valid = false) ∧
    SPECIMEN_ID_PATTERN "wemush:01ARZ3NDEKTSV4RRFFQ69G5FAV" = false := by
  refine ⟨fun s o => ?_, by rfl, by rfl, fun f => by rfl, by rfl⟩
  cases o
  cases s <;> rfl

/-! ## Claim C2: the unknown-field check and the `_meta` field -/

/-- C2: contrary to the claim, `_meta` is not in `KNOWN_FIELDS`, so
whenever the input object has a `_meta` key and `allowUnknownFields` is
unset or false, `validateSpecimen` emits an unknown-field warning whose
path is `_meta`. -/
theorem meta_unknown_field_warning :
    KNOWN_FIELDS.contains "_meta" = false ∧
    (∀ fields (o : ValidationOptions),
      o.allowUnknownFields = none ∨ o.allowUnknownFields = some false →
      "_meta" ∈ fields.map Prod.fst →
      (validateSpecimen (.obj fields) o).warnings.any
        (fun w => w.path == "_meta") = true) := by
  refine ⟨rfl, fun fields o ho hmem => ?_⟩
  have hallow : o.allowUnknownFields.getD false = false := by
    rcases ho with h | h <;> simp [h]
  simp only [validateSpecimen, hallow]
  rw [List.any_append, List.any_append]
  have hwarn : (checkUnknownFields fields false).any (fun w => w.path == "_meta") = true := by
    rw [checkUnknownFields, if_neg (by simp)]
    refine List.any_eq_true.mpr ⟨⟨"_meta", "UNKNOWN_FIELD"⟩, ?_, by rfl⟩
    exact List.mem_filterMap.mpr ⟨"_meta", hmem, rfl⟩
  rw [hwarn]
  simp

/-- Witness for C2: a record with a `_meta` key is warned about under the
default options. -/
theorem meta_unknown_field_warning_witness :
    (({} : ValidationOptions).allowUnknownFields = none ∨
      ({} : ValidationOptions).allowUnknownFields = some false) ∧
    "_meta" ∈ ([("_meta", Json.obj [])].map Prod.fst) ∧
    (validateSpecimen (.obj [("_meta", .obj [])]) {}).warnings.any
      (fun w => w.path == "_meta") = true :=
  ⟨Or.inl rfl, by simp,
   meta_unknown_field_warning.2 [("_meta", .obj [])] {} (Or.inl rfl) (by simp)⟩

/-! ## Claim C9: the strain.generation rule versus isValidGeneration -/

/-- Does an error point at `strain.generation`? -/
def genPath (e : ValidationError) : Bool := e.path == "strain.generation"

theorem vgen_ctx (v : Option Json) : (validateContext v).any genPath = false := by
  rcases v with _ | j
  · rfl
  · cases j <;> first
      | rfl
      | (dsimp only [validateContext]; split <;> rfl)

theorem vgen_type (v : Option Json) : (validateType v).any genPath = false := by
  rcases v with _ | j
  · rfl
  · cases j <;> first
      | rfl
      | (dsimp only [validateType]; split <;> rfl)

theorem vgen_id (v : Option Json) (o : ValidationOptions) :
    (validateId v o).any genPath = false := by
  rcases v with _ | j
  · rfl
  · cases j <;> first
      | rfl
      | (dsimp only [validateId]; split <;> rfl)

theorem vgen_version (v : Option Json) : (validateVersion v).any genPath = false := by
  rcases v with _ | j
  · rfl
  · cases j <;> first
      | rfl
      | (dsimp only [validateVersion]; split <;> rfl)

theorem vgen_sptype (v : Option Json) : (validateSpecimenType v).any genPath = false := by
  rcases v with _ | j
  · rfl
  · cases j <;> first
      | rfl
      | (dsimp only [validateSpecimenType]; split <;> rfl)

theorem vgen_species (v : Option Json) : (validateSpecies v).any genPath = false := by
  rcases v with _ | j
  · rfl
  · cases j <;> first
      | rfl
      | (dsimp only [validateSpecies]; split <;> rfl)

theorem vgen_stage (v : Option Json) (level : VLevel) :
    ((validateStage v level).1).any genPath = false := by
  rcases v with _ | j
  · rfl
  · cases j <;> cases level <;> first
      | rfl
      | (dsimp only [validateStage]; split <;> rfl)

theorem vgen_created (v : Option Json) (level : VLevel) :
    ((validateCreated v level).1).any genPath = false := by
  rcases v with _ | j
  · rfl
  · cases j <;> cases level <;> first
      | rfl
      | (dsimp only [validateCreated]; split <;> rfl)

theorem strainGenErrs_any (sfs : List (String × Json)) (g : String)
    (hg : objGet sfs "generation" = some (.str g)) :
    (strainGenErrs sfs).any genPath = !GENERATION_PATTERN g := by
  rw [strainGenErrs, hg]
  rcases hp : GENERATION_PATTERN g with _ | _ <;> simp [hp, genPath]

theorem strainNameErrs_any (sfs : List (String × Json)) :
    (strainNameErrs sfs).any genPath = false := by
  rw [strainNameErrs]
  rcases objGet sfs "name" with _ | v
  · rfl
  · dsimp only
    split <;> rfl

theorem strainClonalErrs_any (sfs : List (String × Json)) :
    (strainClonalErrs sfs).any genPath = false := by
  rw [strainClonalErrs]
  rcases objGet sfs "clonalGeneration" with _ | v
  · rfl
  · cases v <;> first
      | rfl
      | (dsimp only; split <;> rfl)

theorem strainSourceErrs_any (sfs : List (String × Json)) :
    (strainSourceErrs sfs).any genPath = false := by
  rw [strainSourceErrs]
  rcases objGet sfs "source" with _ | v
  · rfl
  · cases v <;> rfl

theorem strainLineageErrs_any (sfs : List (String × Json)) :
    (strainLineageErrs sfs).any genPath = false := by
  rw [strainLineageErrs]
  rcases objGet sfs "lineage" with _ | v
  · rfl
  · cases v <;> rfl

/-- Among all errors `validateSpecimen` can emit, only the
`strain.generation` check produces that path, and it fires exactly when
`GENERATION_PATTERN` fails on the generation string. -/
theorem validateSpecimen_genErr (fields sfs : List (String × Json)) (g : String)
    (o : ValidationOptions)
    (hst : objGet fields "strain" = some (.obj sfs))
    (hg : objGet sfs "generation" = some (.str g)) :
    (validateSpecimen (.obj fields) o).errors.any genPath = !GENERATION_PATTERN g := by
  simp only [validateSpecimen]
  rw [hst, show validateStrain (some (.obj sfs)) = strainFieldErrors sfs from rfl,
    strainFieldErrors]
  simp only [List.any_append]
  rw [vgen_ctx, vgen_type, vgen_id, vgen_version, vgen_sptype, vgen_species,
    vgen_stage, vgen_created, strainNameErrs_any, strainGenErrs_any sfs g hg,
    strainClonalErrs_any, strainSourceErrs_any, strainLineageErrs_any]
  simp

theorem dropWhile_eq_self_of_all (l : List Char)
    (h : ∀ c ∈ l, isJsWs c = false) : l.dropWhile isJsWs = l := by
  cases l with
  | nil => rfl
  | cons c cs =>
    rw [List.dropWhile_cons, if_neg]
    simp [h c (by simp)]

/-- `trim` is the identity on strings with no JavaScript whitespace. -/
theorem jsTrim_eq_self (l : List Char) (h : ∀ c ∈ l, isJsWs c = false) :
    jsTrim l = l := by
  rw [jsTrim, dropWhile_eq_self_of_all l h,
    dropWhile_eq_self_of_all l.reverse (by intro c hc; exact h c (by simpa using hc)),
    List.reverse_reverse]

/-- Decimal digits are not JavaScript whitespace. -/
theorem isJsWs_of_isDig {c : Char} (h : isDig c = true) : isJsWs c = false := by
  have hne : ∀ d : Char, isDig d = false → c ≠ d := by
    intro d hd he
    subst he
    rw [h] at hd
    exact absurd hd (by simp)
  have hb : 48 ≤ c.toNat ∧ c.toNat ≤ 57 := by simpa [isDig] using h
  obtain ⟨hb1, hb2⟩ := hb
  unfold isJsWs
  simp [hne ' ' (by decide), hne '\t' (by decide), hne '\n' (by decide),
    hne '\r' (by decide)]
  omega

/-- `toUpperCase` fixes decimal digits. -/
theorem toUpper_of_isDig {c : Char} (h : isDig c = true) : c.toUpper = c := by
  have hb : 48 ≤ c.toNat ∧ c.toNat ≤ 57 := by simpa [isDig] using h
  obtain ⟨hb1, hb2⟩ := hb
  have hofn : Char.ofNat c.toNat = c := Char.ofNat_toNat c
  interval_cases hn : c.toNat <;> (rw [← hofn]; decide)

/-- A character satisfying `isDig` differs from any character that does
not. -/
theorem ne_of_isDig {c : Char} (h : isDig c = true) (d : Char)
    (hd : isDig d = false) : c ≠ d := by
  intro he
  subst he
  rw [h] at hd
  exact absurd hd (by simp)

/-- C9: only the strain.generation check ever emits an error at path
`strain.generation`, and it fires exactly when the generation string fails
the validator pattern `P` or `F<digits>`; meanwhile `G<digits>` and bare
digit strings fail that pattern yet satisfy the standalone
`isValidGeneration` helper, so the validator rule is strictly narrower. -/
theorem generation_rule_narrower :
    (∀ fields sfs g o,
      objGet fields "strain" = some (.obj sfs) →
      objGet sfs "generation" = some (.str g) →
      (validateSpecimen (.obj fields) o).errors.any genPath = !GENERATION_PATTERN g) ∧
    (∀ ds : List Char, ds ≠ [] → ds.all isDig = true →
      GENERATION_PATTERN ⟨'G' :: ds⟩ = false ∧
      isValidGeneration ⟨'G' :: ds⟩ = true ∧
      GENERATION_PATTERN ⟨ds⟩ = false ∧
      isValidGeneration ⟨ds⟩ = true) := by
  refine ⟨fun fields sfs g o hst hg => validateSpecimen_genErr fields sfs g o hst hg,
    fun ds hne hdig => ?_⟩
  have hdig' : ∀ c ∈ ds, isDig c = true := List.all_eq_true.mp hdig
  have hnws : ∀ c ∈ ds, isJsWs c = false := fun c hc => isJsWs_of_isDig (hdig' c hc)
  have hmap : ds.map Char.toUpper = ds := by
    have h1 : ∀ c ∈ ds, c.toUpper = id c := fun c hc => toUpper_of_isDig (hdig' c hc)
    rw [List.map_congr_left h1, List.map_id]
  refine ⟨?_, ?_, ?_, ?_⟩
  · rw [show GENERATION_PATTERN ⟨'G' :: ds⟩ =
        (if 'G' = 'P' then ds.isEmpty
         else if 'G' = 'F' then !ds.isEmpty && ds.all isDig else false) from rfl]
    rw [if_neg (by decide), if_neg (by decide)]
  · rw [isValidGeneration,
      show (String.mk ('G' :: ds)).data = 'G' :: ds from rfl,
      jsTrim_eq_self ('G' :: ds) ?hws, List.map_cons,
      show 'G'.toUpper = 'G' from by decide, hmap,
      show GENERATION_PARSE_PATTERN ('G' :: ds) =
        (if 'G' = 'P' then (ds.isEmpty || ds = ['1'])
         else if 'G' = 'F' then !ds.isEmpty && ds.all isDig
         else if 'G' = 'G' then !ds.isEmpty && ds.all isDig
         else ('G' :: ds).all isDig) from rfl,
      if_neg (by decide), if_neg (by decide), if_pos rfl, hdig]
    · simp [hne]
    case hws =>
      intro c hc
      rcases List.mem_cons.mp hc with h | h
      · subst h
        decide
      · exact hnws c h
  · rcases ds with _ | ⟨c, cs⟩
    · exact absurd rfl hne
    have hc : isDig c = true := hdig' c (by simp)
    rw [show GENERATION_PATTERN ⟨c :: cs⟩ =
        (if c = 'P' then cs.isEmpty
         else if c = 'F' then !cs.isEmpty && cs.all isDig else false) from rfl,
      if_neg (ne_of_isDig hc 'P' (by decide)), if_neg (ne_of_isDig hc 'F' (by decide))]
  · rcases ds with _ | ⟨c, cs⟩
    · exact absurd rfl hne
    have hc : isDig c = true := hdig' c (by simp)
    rw [isValidGeneration, show (String.mk (c :: cs)).data = c :: cs from rfl,
      jsTrim_eq_self (c :: cs) (fun d hd => hnws d hd)]
    have hmap2 : (c :: cs).map Char.toUpper = c :: cs := hmap
    rw [hmap2,
      show GENERATION_PARSE_PATTERN (c :: cs) =
        (if c = 'P' then (cs.isEmpty || cs = ['1'])
         else if c = 'F' then !cs.isEmpty && cs.all isDig
         else if c = 'G' then !cs.isEmpty && cs.all isDig
         else (c :: cs).all isDig) from rfl,
      if_neg (ne_of_isDig hc 'P' (by decide)), if_neg (ne_of_isDig hc 'F' (by decide)),
      if_neg (ne_of_isDig hc 'G' (by decide)), hdig]

/-- Witness for C9 on the generation strings `G2` and `3` inside a concrete
otherwise-valid specimen. -/
theorem generation_rule_narrower_witness :
    objGet [("@context", Json.str WOLS_CONTEXT), ("@type", Json.str "Specimen"),
        ("id", Json.str "wemush:abc"), ("version", Json.str "1.2.0"),
        ("type", Json.str "CULTURE"), ("species", Json.str "Pleurotus ostreatus"),
        ("strain", Json.obj [("name", Json.str "Blue"), ("generation", Json.str "G2")])]
      "strain" = some (.obj [("name", Json.str "Blue"), ("generation", Json.str "G2")]) ∧
    objGet [("name", Json.str "Blue"), ("generation", Json.str "G2")] "generation" =
      some (.str "G2") ∧
    (validateSpecimen (.obj [("@context", Json.str WOLS_CONTEXT),
        ("@type", Json.str "Specimen"), ("id", Json.str "wemush:abc"),
        ("version", Json.str "1.2.0"), ("type", Json.str "CULTURE"),
        ("species", Json.str "Pleurotus ostreatus"),
        ("strain", Json.obj [("name", Json.str "Blue"),
          ("generation", Json.str "G2")])]) {}).errors.any genPath =
      !GENERATION_PATTERN "G2" ∧
    (['2'] ≠ ([] : List Char) ∧ ['2'].all isDig = true) ∧
    GENERATION_PATTERN ⟨'G' :: ['2']⟩ = false ∧
    isValidGeneration ⟨'G' :: ['2']⟩ = true ∧
    GENERATION_PATTERN ⟨['3']⟩ = false ∧
    isValidGeneration ⟨['3']⟩ = true := by
  refine ⟨rfl, rfl, ?_, ⟨by simp, rfl⟩, ?_, ?_, ?_, ?_⟩
  · exact generation_rule_narrower.1 _ _ "G2" {} rfl rfl
  · exact (generation_rule_narrower.2 ['2'] (by simp) rfl).1
  · exact (generation_rule_narrower.2 ['2'] (by simp) rfl).2.1
  · exact (generation_rule_narrower.2 ['3'] (by simp) rfl).2.2.1
  · exact (generation_rule_narrower.2 ['3'] (by simp) rfl).2.2.2

/-! ## Claim C4: serialization field order and single-line output -/

/-- The key contributed by an optional field. -/
def optKey (k : String) : Option Json → List String
  | none => []
  | some _ => [k]

theorem optField_keys (k : String) (o : Option Json) :
    (optField k o).map Prod.fst = optKey k o := by
  cases o <;> rfl

/-- Digit characters have code points 48-57. -/
theorem toNat_of_isDig {c : Char} (h : isDig c = true) :
    48 ≤ c.toNat ∧ c.toNat ≤ 57 := by
  simpa [isDig] using h

/-- Every character `escChar` emits is printable (code point at least
32). -/
theorem escChar_printable (c : Char) : ∀ d ∈ escChar c, 32 ≤ d.toNat := by
  have hhex : ∀ n, n < 16 → 32 ≤ (hexDigit n).toNat := by
    intro n hn
    rw [hexDigit]
    split
    · rw [toNat_ofNat_valid (isValidChar_of_small (by omega))]
      omega
    · rw [toNat_ofNat_valid (isValidChar_of_small (by omega))]
      omega
  intro d hd
  rw [escChar] at hd
  split_ifs at hd
  · simp only [List.mem_cons, List.not_mem_nil, or_false] at hd
    rcases hd with h | h <;> (subst h; decide)
  · simp only [List.mem_cons, List.not_mem_nil, or_false] at hd
    rcases hd with h | h <;> (subst h; decide)
  · simp only [List.mem_cons, List.not_mem_nil, or_false] at hd
    rcases hd with h | h <;> (subst h; decide)
  · simp only [List.mem_cons, List.not_mem_nil, or_false] at hd
    rcases hd with h | h <;> (subst h; decide)
  · simp only [List.mem_cons, List.not_mem_nil, or_false] at hd
    rcases hd with h | h <;> (subst h; decide)
  · simp only [List.mem_cons, List.not_mem_nil, or_false] at hd
    rcases hd with h | h <;> (subst h; decide)
  · simp only [List.mem_cons, List.not_mem_nil, or_false] at hd
    rcases hd with h | h <;> (subst h; decide)
  · simp only [List.mem_cons, List.not_mem_nil, or_false] at hd
    rcases hd with h | h | h | h | h | h
    · subst h
      decide
    · subst h
      decide
    · subst h
      decide
    · subst h
      decide
    · subst h
      exact hhex _ (by omega)
    · subst h
      exact hhex _ (Nat.mod_lt _ (by omega))
  · simp only [List.mem_cons, List.not_mem_nil, or_false] at hd
    subst hd
    omega

/-- Every character of an integer literal is printable. -/
theorem intChars_printable (i : Int) : ∀ d ∈ intChars i, 32 ≤ d.toNat := by
  have hnat : ∀ n : Nat, ∀ d ∈ natChars n, 32 ≤ d.toNat := by
    intro n d hd
    have := (toNat_of_isDig (natChars_digits n d hd)).1
    omega
  intro d hd
  rw [intChars] at hd
  split at hd
  · rcases List.mem_cons.mp hd with h | h
    · subst h
      decide
    · exact hnat _ d h
  · exact hnat _ d hd

/-- Every character of a quoted string literal is printable. -/
theorem quoteStr_printable (s : String) : ∀ d ∈ quoteStr s, 32 ≤ d.toNat := by
  intro d hd
  rw [quoteStr] at hd
  rcases List.mem_cons.mp hd with h | h
  · subst h
    decide
  · rcases List.mem_append.mp h with h | h
    · obtain ⟨c, -, hc⟩ := List.mem_flatMap.mp h
      exact escChar_printable c d hc
    · simp only [List.mem_singleton] at h
      subst h
      decide

/-- At any fuel bound, serialized JSON contains only printable characters:
no line breaks, tabs, or other control characters. -/
theorem jStr_printable (n : Nat) :
    (∀ v, jSize v ≤ n → ∀ c ∈ jStr v, 32 ≤ c.toNat) ∧
    (∀ xs, jSizeElems xs ≤ n → ∀ c ∈ jStrElems xs, 32 ≤ c.toNat) ∧
    (∀ fs, jSizeMembers fs ≤ n → ∀ c ∈ jStrMembers fs, 32 ≤ c.toNat) := by
  induction n with
  | zero =>
    refine ⟨fun v h => absurd h (by have := jSize_pos v; omega), fun xs h => ?_,
      fun fs h => ?_⟩
    · cases xs with
      | nil => simp [show jStrElems [] = [] from rfl]
      | cons x xs2 =>
        rw [jSizeElems_cons_eq] at h
        omega
    · cases fs with
      | nil => simp [show jStrMembers [] = [] from rfl]
      | cons m fs2 =>
        obtain ⟨k, v⟩ := m
        rw [jSizeMembers_cons_eq] at h
        omega
  | succ n ih =>
    obtain ⟨ihV, ihE, ihM⟩ := ih
    refine ⟨fun v h => ?_, fun xs h => ?_, fun fs h => ?_⟩
    · cases v with
      | null =>
        rw [show jStr Json.null = ['n', 'u', 'l', 'l'] from rfl]
        decide
      | bool b =>
        cases b with
        | true =>
          rw [show jStr (Json.bool true) = ['t', 'r', 'u', 'e'] from rfl]
          decide
        | false =>
          rw [show jStr (Json.bool false) = ['f', 'a', 'l', 's', 'e'] from rfl]
          decide
      | num m =>
        rw [show jStr (Json.num m) = intChars m from rfl]
        exact intChars_printable m
      | str s =>
        rw [show jStr (Json.str s) = quoteStr s from rfl]
        exact quoteStr_printable s
      | arr xs =>
        rw [show jStr (Json.arr xs) = '[' :: (jStrElems xs ++ [']']) from rfl]
        intro c hc
        rcases List.mem_cons.mp hc with hh | hh
        · subst hh
          decide
        · rcases List.mem_append.mp hh with hh | hh
          · exact ihE xs (by rw [jSize_arr_eq] at h; omega) c hh
          · simp only [List.mem_singleton] at hh
            subst hh
            decide
      | obj fs =>
        rw [show jStr (Json.obj fs) = '\x7b' :: (jStrMembers fs ++ ['\x7d']) from rfl]
        intro c hc
        rcases List.mem_cons.mp hc with hh | hh
        · subst hh
          decide
        · rcases List.mem_append.mp hh with hh | hh
          · exact ihM fs (by rw [jSize_obj_eq] at h; omega) c hh
          · simp only [List.mem_singleton] at hh
            subst hh
            decide
    · cases xs with
      | nil => simp [show jStrElems [] = [] from rfl]
      | cons x xs2 =>
        rw [jSizeElems_cons_eq] at h
        rw [jStrElems_cons]
        intro c hc
        rcases List.mem_append.mp hc with hh | hh
        · exact ihV x (by omega) c hh
        · cases xs2 with
          | nil => simp [elemsTail] at hh
          | cons y ys =>
            rw [show elemsTail (y :: ys) = ',' :: jStrElems (y :: ys) from rfl] at hh
            rcases List.mem_cons.mp hh with hh | hh
            · subst hh
              decide
            · exact ihE (y :: ys) (by omega) c hh
    · cases fs with
      | nil => simp [show jStrMembers [] = [] from rfl]
      | cons m fs2 =>
        obtain ⟨k, v⟩ := m
        rw [jSizeMembers_cons_eq] at h
        rw [jStrMembers_cons]
        intro c hc
        rcases List.mem_append.mp hc with hh | hh
        · rcases List.mem_append.mp hh with hh | hh
          · exact quoteStr_printable k c hh
          · rcases List.mem_cons.mp hh with hh | hh
            · subst hh
              decide
            · exact ihV v (by omega) c hh
        · cases fs2 with
          | nil => simp [memTail] at hh
          | cons m2 ms =>
            rw [show memTail (m2 :: ms) = ',' :: jStrMembers (m2 :: ms) from rfl] at hh
            rcases List.mem_cons.mp hh with hh | hh
            · subst hh
              decide
            · exact ihM (m2 :: ms) (by omega) c hh

/-- C4: for every Specimen, the serialized object lists its keys in exactly
the fixed order — `@context`, `@type`, `id`, `version`, `type`, `species`,
then the optional fields in declared order with `_meta` last, each present
only when the field is defined (absent fields are omitted entirely) — and
the output string contains no line breaks, tabs, or any other control
characters. -/
theorem serializeSpecimen_order_single_line (s : Specimen) :
    (specimenFields s).map Prod.fst =
      ["@context", "@type", "id", "version", "type", "species"] ++
        (optKey "strain" s.strain ++ optKey "stage" s.stage ++
         optKey "created" s.created ++ optKey "batch" s.batch ++
         optKey "organization" s.organization ++ optKey "creator" s.creator ++
         optKey "custom" s.custom ++ optKey "signature" s.signature ++
         optKey "_meta" s.meta) ∧
    serializeSpecimen s = jsonStringify (.obj (specimenFields s)) ∧
    (serializeSpecimen s).data.all
      (fun c => c ≠ '\n' && c ≠ '\t' && c ≠ '\r' && decide (32 ≤ c.toNat)) = true := by
  refine ⟨?_, rfl, ?_⟩
  · simp only [specimenFields, List.map_cons, List.map_append, optField_keys]
    rfl
  · have hchars : ∀ c ∈ (serializeSpecimen s).data, 32 ≤ c.toNat := by
      intro c hc
      have hdata : (serializeSpecimen s).data = jStr (specimenJson s) := rfl
      rw [hdata] at hc
      exact (jStr_printable (jSize (specimenJson s))).1 (specimenJson s) le_rfl c hc
    rw [List.all_eq_true]
    intro c hc
    have h32 := hchars c hc
    have hne : ∀ d : Char, d.toNat < 32 → c ≠ d := by
      intro d hdlt he
      subst he
      omega
    simp [hne '\n' (by decide), hne '\t' (by decide), hne '\r' (by decide), h32]

/-! ## Claim C3: parseSpecimen inverts serializeSpecimen -/

theorem objGet_cons_ne (k1 k2 : String) (v : Json) (rest : List (String × Json))
    (h : k1 ≠ k2) : objGet ((k1, v) :: rest) k2 = objGet rest k2 := by
  simp [objGet, h]

theorem objGet_optField_ne (k1 k2 : String) (o : Option Json)
    (rest : List (String × Json)) (h : k1 ≠ k2) :
    objGet (optField k1 o ++ rest) k2 = objGet rest k2 := by
  cases o
  · rfl
  · simp [optField, objGet, h]

theorem sfGet_id (s : Specimen) : objGet (specimenFields s) "id" = some s.id := rfl

theorem sfGet_version (s : Specimen) :
    objGet (specimenFields s) "version" = some s.version := rfl

theorem sfGet_type (s : Specimen) : objGet (specimenFields s) "type" = some s.type := rfl

theorem sfGet_species (s : Specimen) :
    objGet (specimenFields s) "species" = some s.species := rfl

theorem sfGet_strain (s : Specimen) :
    objGet (specimenFields s) "strain" = s.strain := by
  rw [specimenFields]
  simp only [List.append_assoc]
  rw [objGet_cons_ne "@context" "strain" _ _ (by decide),
    objGet_cons_ne "@type" "strain" _ _ (by decide),
    objGet_cons_ne "id" "strain" _ _ (by decide),
    objGet_cons_ne "version" "strain" _ _ (by decide),
    objGet_cons_ne "type" "strain" _ _ (by decide),
    objGet_cons_ne "species" "strain" _ _ (by decide)]
  cases s.strain with
  | some v => rfl
  | none =>
    rw [show optField "strain" (none : Option Json) = [] from rfl, List.nil_append,
      objGet_optField_ne "stage" "strain" _ _ (by decide),
      objGet_optField_ne "created" "strain" _ _ (by decide),
      objGet_optField_ne "batch" "strain" _ _ (by decide),
      objGet_optField_ne "organization" "strain" _ _ (by decide),
      objGet_optField_ne "creator" "strain" _ _ (by decide),
      objGet_optField_ne "custom" "strain" _ _ (by decide),
      objGet_optField_ne "signature" "strain" _ _ (by decide)]
    cases s.meta <;> rfl

theorem sfGet_stage (s : Specimen) :
    objGet (specimenFields s) "stage" = s.stage := by
  rw [specimenFields]
  simp only [List.append_assoc]
  rw [objGet_cons_ne "@context" "stage" _ _ (by decide),
    objGet_cons_ne "@type" "stage" _ _ (by decide),
    objGet_cons_ne "id" "stage" _ _ (by decide),
    objGet_cons_ne "version" "stage" _ _ (by decide),
    objGet_cons_ne "type" "stage" _ _ (by decide),
    objGet_cons_ne "species" "stage" _ _ (by decide)]
  rw [objGet_optField_ne "strain" "stage" _ _ (by decide)]
  cases s.stage with
  | some v => rfl
  | none =>
    rw [show optField "stage" (none : Option Json) = [] from rfl,
      List.nil_append,
      objGet_optField_ne "created" "stage" _ _ (by decide),
      objGet_optField_ne "batch" "stage" _ _ (by decide),
      objGet_optField_ne "organization" "stage" _ _ (by decide),
      objGet_optField_ne "creator" "stage" _ _ (by decide),
      objGet_optField_ne "custom" "stage" _ _ (by decide),
      objGet_optField_ne "signature" "stage" _ _ (by decide)]
    cases s.meta <;> rfl

theorem sfGet_created (s : Specimen) :
    objGet (specimenFields s) "created" = s.created := by
  rw [specimenFields]
  simp only [List.append_assoc]
  rw [objGet_cons_ne "@context" "created" _ _ (by decide),
    objGet_cons_ne "@type" "created" _ _ (by decide),
    objGet_cons_ne "id" "created" _ _ (by decide),
    objGet_cons_ne "version" "created" _ _ (by decide),
    objGet_cons_ne "type" "created" _ _ (by decide),
    objGet_cons_ne "species" "created" _ _ (by decide)]
  rw [objGet_optField_ne "strain" "created" _ _ (by decide),
    objGet_optField_ne "stage" "created" _ _ (by decide)]
  cases s.created with
  | some v => rfl
  | none =>
    rw [show optField "created" (none : Option Json) = [] from rfl,
      List.nil_append,
      objGet_optField_ne "batch" "created" _ _ (by decide),
      objGet_optField_ne "organization" "created" _ _ (by decide),
      objGet_optField_ne "creator" "created" _ _ (by decide),
      objGet_optField_ne "custom" "created" _ _ (by decide),
      objGet_optField_ne "signature" "created" _ _ (by decide)]
    cases s.meta <;> rfl

theorem sfGet_batch (s : Specimen) :
    objGet (specimenFields s) "batch" = s.batch := by
  rw [specimenFields]
  simp only [List.append_assoc]
  rw [objGet_cons_ne "@context" "batch" _ _ (by decide),
    objGet_cons_ne "@type" "batch" _ _ (by decide),
    objGet_cons_ne "id" "batch" _ _ (by decide),
    objGet_cons_ne "version" "batch" _ _ (by decide),
    objGet_cons_ne "type" "batch" _ _ (by decide),
    objGet_cons_ne "species" "batch" _ _ (by decide)]
  rw [objGet_optField_ne "strain" "batch" _ _ (by decide),
    objGet_optField_ne "stage" "batch" _ _ (by decide),
    objGet_optField_ne "created" "batch" _ _ (by decide)]
  cases s.batch with
  | some v => rfl
  | none =>
    rw [show optField "batch" (none : Option Json) = [] from rfl,
      List.nil_append,
      objGet_optField_ne "organization" "batch" _ _ (by decide),
      objGet_optField_ne "creator" "batch" _ _ (by decide),
      objGet_optField_ne "custom" "batch" _ _ (by decide),
      objGet_optField_ne "signature" "batch" _ _ (by decide)]
    cases s.meta <;> rfl

theorem sfGet_organization (s : Specimen) :
    objGet (specimenFields s) "organization" = s.organization := by
  rw [specimenFields]
  simp only [List.append_assoc]
  rw [objGet_cons_ne "@context" "organization" _ _ (by decide),
    objGet_cons_ne "@type" "organization" _ _ (by decide),
    objGet_cons_ne "id" "organization" _ _ (by decide),
    objGet_cons_ne "version" "organization" _ _ (by decide),
    objGet_cons_ne "type" "organization" _ _ (by decide),
    objGet_cons_ne "species" "organization" _ _ (by decide)]
  rw [objGet_optField_ne "strain" "organization" _ _ (by decide),
    objGet_optField_ne "stage" "organization" _ _ (by decide),
    objGet_optField_ne "created" "organization" _ _ (by decide),
    objGet_optField_ne "batch" "organization" _ _ (by decide)]
  cases s.organization with
  | some v => rfl
  | none =>
    rw [show optField "organization" (none : Option Json) = [] from rfl,
      List.nil_append,
      objGet_optField_ne "creator" "organization" _ _ (by decide),
      objGet_optField_ne "custom" "organization" _ _ (by decide),
      objGet_optField_ne "signature" "organization" _ _ (by decide)]
    cases s.meta <;> rfl

theorem sfGet_creator (s : Specimen) :
    objGet (specimenFields s) "creator" = s.creator := by
  rw [specimenFields]
  simp only [List.append_assoc]
  rw [objGet_cons_ne "@context" "creator" _ _ (by decide),
    objGet_cons_ne "@type" "creator" _ _ (by decide),
    objGet_cons_ne "id" "creator" _ _ (by decide),
    objGet_cons_ne "version" "creator" _ _ (by decide),
    objGet_cons_ne "type" "creator" _ _ (by decide),
    objGet_cons_ne "species" "creator" _ _ (by decide)]
  rw [objGet_optField_ne "strain" "creator" _ _ (by decide),
    objGet_optField_ne "stage" "creator" _ _ (by decide),
    objGet_optField_ne "created" "creator" _ _ (by decide),
    objGet_optField_ne "batch" "creator" _ _ (by decide),
    objGet_optField_ne "organization" "creator" _ _ (by decide)]
  cases s.creator with
  | some v => rfl
  | none =>
    rw [show optField "creator" (none : Option Json) = [] from rfl,
      List.nil_append,
      objGet_optField_ne "custom" "creator" _ _ (by decide),
      objGet_optField_ne "signature" "creator" _ _ (by decide)]
    cases s.meta <;> rfl

theorem sfGet_custom (s : Specimen) :
    objGet (specimenFields s) "custom" = s.custom := by
  rw [specimenFields]
  simp only [List.append_assoc]
  rw [objGet_cons_ne "@context" "custom" _ _ (by decide),
    objGet_cons_ne "@type" "custom" _ _ (by decide),
    objGet_cons_ne "id" "custom" _ _ (by decide),
    objGet_cons_ne "version" "custom" _ _ (by decide),
    objGet_cons_ne "type" "custom" _ _ (by decide),
    objGet_cons_ne "species" "custom" _ _ (by decide)]
  rw [objGet_optField_ne "strain" "custom" _ _ (by decide),
    objGet_optField_ne "stage" "custom" _ _ (by decide),
    objGet_optField_ne "created" "custom" _ _ (by decide),
    objGet_optField_ne "batch" "custom" _ _ (by decide),
    objGet_optField_ne "organization" "custom" _ _ (by decide),
    objGet_optField_ne "creator" "custom" _ _ (by decide)]
  cases s.custom with
  | some v => rfl
  | none =>
    rw [show optField "custom" (none : Option Json) = [] from rfl,
      List.nil_append,
      objGet_optField_ne "signature" "custom" _ _ (by decide)]
    cases s.meta <;> rfl

theorem sfGet_signature (s : Specimen) :
    objGet (specimenFields s) "signature" = s.signature := by
  rw [specimenFields]
  simp only [List.append_assoc]
  rw [objGet_cons_ne "@context" "signature" _ _ (by decide),
    objGet_cons_ne "@type" "signature" _ _ (by decide),
    objGet_cons_ne "id" "signature" _ _ (by decide),
    objGet_cons_ne "version" "signature" _ _ (by decide),
    objGet_cons_ne "type" "signature" _ _ (by decide),
    objGet_cons_ne "species" "signature" _ _ (by decide)]
  rw [objGet_optField_ne "strain" "signature" _ _ (by decide),
    objGet_optField_ne "stage" "signature" _ _ (by decide),
    objGet_optField_ne "created" "signature" _ _ (by decide),
    objGet_optField_ne "batch" "signature" _ _ (by decide),
    objGet_optField_ne "organization" "signature" _ _ (by decide),
    objGet_optField_ne "creator" "signature" _ _ (by decide),
    objGet_optField_ne "custom" "signature" _ _ (by decide)]
  cases s.signature with
  | some v => rfl
  | none =>
    rw [show optField "signature" (none : Option Json) = [] from rfl,
      List.nil_append]
    cases s.meta <;> rfl

theorem sfGet_meta (s : Specimen) :
    objGet (specimenFields s) "_meta" = s.meta := by
  rw [specimenFields]
  simp only [List.append_assoc]
  rw [objGet_cons_ne "@context" "_meta" _ _ (by decide),
    objGet_cons_ne "@type" "_meta" _ _ (by decide),
    objGet_cons_ne "id" "_meta" _ _ (by decide),
    objGet_cons_ne "version" "_meta" _ _ (by decide),
    objGet_cons_ne "type" "_meta" _ _ (by decide),
    objGet_cons_ne "species" "_meta" _ _ (by decide)]
  rw [objGet_optField_ne "strain" "_meta" _ _ (by decide),
    objGet_optField_ne "stage" "_meta" _ _ (by decide),
    objGet_optField_ne "created" "_meta" _ _ (by decide),
    objGet_optField_ne "batch" "_meta" _ _ (by decide),
    objGet_optField_ne "organization" "_meta" _ _ (by decide),
    objGet_optField_ne "creator" "_meta" _ _ (by decide),
    objGet_optField_ne "custom" "_meta" _ _ (by decide),
    objGet_optField_ne "signature" "_meta" _ _ (by decide)]
  cases s.meta with
  | some v => rfl
  | none => rfl

theorem skipNull_of_ne {o : Option Json} (h : o ≠ some .null) : skipNull o = o := by
  cases o with
  | none => rfl
  | some v => cases v <;> first | (exact absurd rfl h) | rfl

/-- C3: a Specimen accepted by `validateSpecimen` under default options
(whose runtime object is well-formed, and whose optional `strain` and
`stage` values are not `null` — guaranteed by the Specimen type) survives
the serialize/parse round trip unchanged: every field serialization emits
is recovered and fields absent in the input remain absent. -/
theorem parseSpecimen_serializeSpecimen (s : Specimen)
    (hwf : jWF (specimenJson s) = true)
    (hvalid : (validateSpecimen (specimenJson s) {}).valid = true)
    (hstrain : s.strain ≠ some .null) (hstage : s.stage ≠ some .null) :
    parseSpecimen (serializeSpecimen s) = some s := by
  rw [parseSpecimen, serializeSpecimen, jsonParse_jsonStringify (specimenJson s) hwf]
  dsimp only
  rw [show isPlainObjectJ (specimenJson s) = true from rfl, hvalid]
  simp only [Bool.not_true, Bool.false_eq_true, if_false]
  dsimp only [specimenJson]
  simp only [sfGet_id, sfGet_version, sfGet_type, sfGet_species, sfGet_strain,
    sfGet_stage, sfGet_created, sfGet_batch, sfGet_organization, sfGet_creator,
    sfGet_custom, sfGet_signature, sfGet_meta, skipNull_of_ne hstrain,
    skipNull_of_ne hstage]

/-- Witness for C3 on a concrete valid specimen carrying an optional
field. -/
theorem parseSpecimen_serializeSpecimen_witness :
    jWF (specimenJson (Specimen.mk (.str "wemush:abc1") (.str "1.2.0")
      (.str "CULTURE") (.str "Pleurotus ostreatus") none (some (.str "FRUITING"))
      none none none none none none none)) = true ∧
    (validateSpecimen (specimenJson (Specimen.mk (.str "wemush:abc1") (.str "1.2.0")
      (.str "CULTURE") (.str "Pleurotus ostreatus") none (some (.str "FRUITING"))
      none none none none none none none)) {}).valid = true ∧
    parseSpecimen (serializeSpecimen (Specimen.mk (.str "wemush:abc1") (.str "1.2.0")
      (.str "CULTURE") (.str "Pleurotus ostreatus") none (some (.str "FRUITING"))
      none none none none none none none)) =
      some (Specimen.mk (.str "wemush:abc1") (.str "1.2.0")
        (.str "CULTURE") (.str "Pleurotus ostreatus") none (some (.str "FRUITING"))
        none none none none none none none) := by
  refine ⟨by rfl, by rfl, ?_⟩
  exact parseSpecimen_serializeSpecimen _ (by rfl) (by rfl) (by simp) (by simp)

/-! ## Claims C6 and C7: compact URLs -/

theorem strStarts_append (p r : List Char) : strStarts p (p ++ r) = true := by
  induction p with
  | nil => rfl
  | cons c cs ih => simp [strStarts, ih]

theorem splitCh_of_not_mem (sep : Char) (l : List Char) (h : sep ∉ l) :
    splitCh sep l = [l] := by
  induction l with
  | nil => rfl
  | cons c cs ih =>
    rw [splitCh, if_neg (by intro he; exact h (he ▸ List.mem_cons_self c cs))]
    rw [ih (fun hm => h (List.mem_cons_of_mem c hm))]

theorem splitCh_append (sep : Char) (a b : List Char) (h : sep ∉ a) :
    splitCh sep (a ++ sep :: b) = a :: splitCh sep b := by
  induction a with
  | nil => simp [splitCh]
  | cons c cs ih =>
    rw [List.cons_append, splitCh,
      if_neg (by intro he; exact h (he ▸ List.mem_cons_self c cs))]
    rw [ih (fun hm => h (List.mem_cons_of_mem c hm))]

theorem isEmpty_append_cons (a : List Char) (c : Char) (b : List Char) :
    (a ++ c :: b).isEmpty = false := by
  cases a <;> rfl

/-- What `parseCompactUrl` computes on a URL of the canonical shape
`wemush://{ver}/{id}?{query}`: the path is accepted and the outcome is
decided by the presence of the `s` query parameter; every other query
field is optional and its absence leaves the corresponding reference field
absent. -/
theorem parseCompactUrl_parts (ver id query : List Char)
    (hv1 : '?' ∉ ver) (hv2 : '/' ∉ ver)
    (hi1 : '?' ∉ id) (hi2 : '/' ∉ id) (hid : id ≠ [])
    (hq : '?' ∉ query) :
    parseCompactUrl ⟨"wemush://".data ++ (ver ++ '/' :: id ++ '?' :: query)⟩ =
      (match searchGet (parseQuery query) "s" with
       | none => .error "Invalid compact URL format: missing species parameter"
       | some sp =>
         .ok (SpecimenRef.mk ("wemush:" ++ (⟨id⟩ : String))
           ((getSpeciesFromCode sp).getD sp)
           (if ver = "v1".data then "1.1.0" else "1.0.0")
           (searchGet (parseQuery query) "ty")
           (searchGet (parseQuery query) "st")
           ((searchGet (parseQuery query) "t").map parseIntJs)
           (searchGet (parseQuery query) "b")
           (match searchGet (parseQuery query) "sn" with
            | none => none
            | some n => some ⟨n, searchGet (parseQuery query) "sg"⟩))) := by
  rw [parseCompactUrl]
  rw [show (⟨"wemush://".data ++ (ver ++ '/' :: id ++ '?' :: query)⟩ : String).data =
    "wemush://".data ++ (ver ++ '/' :: id ++ '?' :: query) from rfl]
  rw [strStarts_append]
  simp only [Bool.not_true, Bool.false_eq_true, if_false]
  rw [show (9 : Nat) = "wemush://".data.length from rfl, List.drop_left]
  have hsplit : splitCh '?' (ver ++ '/' :: id ++ '?' :: query) =
      (ver ++ '/' :: id) :: splitCh '?' query := by
    rw [show ver ++ '/' :: id ++ '?' :: query = (ver ++ '/' :: id) ++ '?' :: query by
      simp [List.append_assoc]]
    refine splitCh_append '?' (ver ++ '/' :: id) query ?_
    intro hm
    rcases List.mem_append.mp hm with h | h
    · exact hv1 h
    · rcases List.mem_cons.mp h with h | h
      · exact absurd h.symm (by decide)
      · exact hi1 h
  rw [hsplit, splitCh_of_not_mem '?' query hq]
  dsimp only [List.headD, List.get?]
  rw [isEmpty_append_cons]
  simp only [Bool.false_eq_true, if_false]
  rw [splitCh_append '/' ver id hv2, splitCh_of_not_mem '/' id hi2]
  dsimp only [List.get?]
  rcases id with _ | ⟨c, cs⟩
  · exact absurd rfl hid
  rfl

/-- C6 (corrected): on a URL with the `wemush://` scheme, a version
segment, and a non-empty id segment, `parseCompactUrl` succeeds exactly
when the `s` (species) query parameter is present — its absence is a hard
failure, while the absence of any other query field never causes failure
and simply leaves the corresponding reference field absent. -/
theorem parseCompactUrl_species_required (ver id query : List Char)
    (hv1 : '?' ∉ ver) (hv2 : '/' ∉ ver) (hi1 : '?' ∉ id) (hi2 : '/' ∉ id)
    (hid : id ≠ []) (hq : '?' ∉ query) :
    (∀ sp, searchGet (parseQuery query) "s" = some sp →
      parseCompactUrl ⟨"wemush://".data ++ (ver ++ '/' :: id ++ '?' :: query)⟩ =
        .ok (SpecimenRef.mk ("wemush:" ++ (⟨id⟩ : String))
          ((getSpeciesFromCode sp).getD sp)
          (if ver = "v1".data then "1.1.0" else "1.0.0")
          (searchGet (parseQuery query) "ty")
          (searchGet (parseQuery query) "st")
          ((searchGet (parseQuery query) "t").map parseIntJs)
          (searchGet (parseQuery query) "b")
          (match searchGet (parseQuery query) "sn" with
           | none => none
           | some n => some ⟨n, searchGet (parseQuery query) "sg"⟩))) ∧
    (searchGet (parseQuery query) "s" = none →
      parseCompactUrl ⟨"wemush://".data ++ (ver ++ '/' :: id ++ '?' :: query)⟩ =
        .error "Invalid compact URL format: missing species parameter") := by
  constructor
  · intro sp hs
    rw [parseCompactUrl_parts ver id query hv1 hv2 hi1 hi2 hid hq, hs]
  · intro hs
    rw [parseCompactUrl_parts ver id query hv1 hv2 hi1 hi2 hid hq, hs]

/-- Witness for C6 with only the species and stage parameters present. -/
theorem parseCompactUrl_species_required_witness :
    ('?' ∉ ['v', '1'] ∧ '/' ∉ ['v', '1'] ∧ '?' ∉ ['a', 'b', 'c'] ∧
      '/' ∉ ['a', 'b', 'c'] ∧ ['a', 'b', 'c'] ≠ ([] : List Char) ∧
      '?' ∉ "s=POSTR&st=COLONIZATION".data ∧
      searchGet (parseQuery "s=POSTR&st=COLONIZATION".data) "s" = some "POSTR" ∧
      searchGet (parseQuery "nope=1".data) "s" = none) ∧
    parseCompactUrl
        ⟨"wemush://".data ++ (['v', '1'] ++ '/' :: ['a', 'b', 'c'] ++
          '?' :: "s=POSTR&st=COLONIZATION".data)⟩ =
      .ok (SpecimenRef.mk "wemush:abc" "Pleurotus ostreatus" "1.1.0" none
        (some "COLONIZATION") none none none) ∧
    parseCompactUrl
        ⟨"wemush://".data ++ (['v', '1'] ++ '/' :: ['a', 'b', 'c'] ++
          '?' :: "nope=1".data)⟩ =
      .error "Invalid compact URL format: missing species parameter" := by
  refine ⟨⟨by decide, by decide, by decide, by decide, by simp, by decide, by decide,
    by decide⟩, ?_, ?_⟩
  · exact (parseCompactUrl_species_required ['v', '1'] ['a', 'b', 'c']
      "s=POSTR&st=COLONIZATION".data (by decide) (by decide) (by decide) (by decide)
      (by simp) (by decide)).1 "POSTR" (by decide)
  · exact (parseCompactUrl_species_required ['v', '1'] ['a', 'b', 'c']
      "nope=1".data (by decide) (by decide) (by decide) (by decide)
      (by simp) (by decide)).2 (by decide)

/-- Counterexample to C6 as written: the scheme, version segment, and id
segment are all present, every query field is absent, and
`parseCompactUrl` nonetheless fails, because the species parameter is
required. -/
theorem parseCompactUrl_no_query_fails :
    parseCompactUrl "wemush://v1/abc" =
      .error "Invalid compact URL format: missing species parameter" := rfl

theorem char_toNat_lt (c : Char) : c.toNat < 1114112 := by
  rcases c.valid with h | ⟨-, h⟩
  · exact lt_trans h (by decide)
  · exact h

theorem utf8Bytes_lt (c : Char) : ∀ b ∈ utf8Bytes c, b < 256 := by
  intro b hb
  have hc := char_toNat_lt c
  rw [utf8Bytes] at hb
  split_ifs at hb with h1 h2 h3
  · simp only [List.mem_cons, List.not_mem_nil, or_false] at hb
    omega
  · simp only [List.mem_cons, List.not_mem_nil, or_false] at hb
    rcases hb with rfl | rfl <;> omega
  · simp only [List.mem_cons, List.not_mem_nil, or_false] at hb
    rcases hb with rfl | rfl | rfl <;> omega
  · simp only [List.mem_cons, List.not_mem_nil, or_false] at hb
    rcases hb with rfl | rfl | rfl | rfl <;> omega

theorem hexDigitUp_plain (n : Nat) (h : n < 16) :
    hexDigitUp n ≠ '&' ∧ hexDigitUp n ≠ '=' ∧ hexDigitUp n ≠ '?' := by
  interval_cases n <;> exact ⟨by decide, by decide, by decide⟩

/-- Form-urlencoded output never contains a raw separator (`&`, `=`) or
`?`. -/
theorem formEncodeChar_plain {c d : Char} (hd : d ∈ formEncodeChar c) :
    d ≠ '&' ∧ d ≠ '=' ∧ d ≠ '?' := by
  rw [formEncodeChar] at hd
  split_ifs at hd with h1 h2
  · simp only [List.mem_cons, List.not_mem_nil, or_false] at hd
    subst hd
    exact ⟨by decide, by decide, by decide⟩
  · simp only [List.mem_cons, List.not_mem_nil, or_false] at hd
    subst hd
    refine ⟨fun he => ?_, fun he => ?_, fun he => ?_⟩ <;>
      (subst he; exact absurd h2 (by decide))
  · obtain ⟨b, hb, hdb⟩ := List.mem_flatMap.mp hd
    have hb255 : b < 256 := utf8Bytes_lt c b hb
    rw [pctByte] at hdb
    simp only [List.mem_cons, List.not_mem_nil, or_false] at hdb
    rcases hdb with rfl | rfl | rfl
    · exact ⟨by decide, by decide, by decide⟩
    · exact hexDigitUp_plain _ (by omega)
    · exact hexDigitUp_plain _ (Nat.mod_lt _ (by omega))

theorem formEncode_plain (v : String) :
    '&' ∉ formEncode v ∧ '=' ∉ formEncode v ∧ '?' ∉ formEncode v := by
  refine ⟨fun hm => ?_, fun hm => ?_, fun hm => ?_⟩ <;>
    (obtain ⟨c, -, hc⟩ := List.mem_flatMap.mp hm)
  · exact absurd rfl (formEncodeChar_plain hc).1
  · exact absurd rfl (formEncodeChar_plain hc).2.1
  · exact absurd rfl (formEncodeChar_plain hc).2.2

theorem mem_joinSep {sep c : Char} {xs : List (List Char)}
    (h : c ∈ joinSep sep xs) : c = sep ∨ ∃ x ∈ xs, c ∈ x := by
  induction xs with
  | nil => simp [joinSep] at h
  | cons x ys ih =>
    cases ys with
    | nil =>
      rw [show joinSep sep [x] = x from rfl] at h
      exact Or.inr ⟨x, by simp, h⟩
    | cons y zs =>
      rw [show joinSep sep (x :: y :: zs) = x ++ sep :: joinSep sep (y :: zs) from rfl] at h
      rcases List.mem_append.mp h with hm | hm
      · exact Or.inr ⟨x, by simp, hm⟩
      · rcases List.mem_cons.mp hm with hm | hm
        · exact Or.inl hm
        · rcases ih hm with hm | ⟨z, hz, hcz⟩
          · exact Or.inl hm
          · exact Or.inr ⟨z, List.mem_cons_of_mem x hz, hcz⟩

/-- The serialized query string of a parameter list never contains `?`. -/
theorem paramsToString_no_qmark (ps : List (String × String)) :
    '?' ∉ paramsToString ps := by
  intro hm
  rcases mem_joinSep hm with h | ⟨x, hx, hcx⟩
  · exact absurd h (by decide)
  · obtain ⟨p, -, hp⟩ := List.mem_map.mp hx
    subst hp
    rcases List.mem_append.mp hcx with h | h
    · exact absurd h (formEncode_plain p.1).2.2
    · rcases List.mem_cons.mp h with h | h
      · exact absurd h (by decide)
      · exact absurd h (formEncode_plain p.2).2.2

/-- The query string of a non-empty parameter list starts with an encoded
key and `=`, hence is non-empty. -/
theorem paramsToString_shape (p : String × String) (ps : List (String × String)) :
    ∃ rest, paramsToString (p :: ps) = formEncode p.1 ++ '=' :: rest := by
  cases ps with
  | nil => exact ⟨formEncode p.2, rfl⟩
  | cons q qs =>
    refine ⟨formEncode p.2 ++ '&' :: joinSep '&'
      ((q :: qs).map (fun r => formEncode r.1 ++ '=' :: formEncode r.2)), ?_⟩
    rw [paramsToString, List.map_cons, List.map_cons,
      show ∀ a b (l : List (List Char)), joinSep '&' (a :: b :: l) =
        a ++ '&' :: joinSep '&' (b :: l) from fun a b l => rfl]
    simp [List.append_assoc, paramsToString]

theorem paramsToString_ne_empty (p : String × String) (ps : List (String × String)) :
    (paramsToString (p :: ps)).isEmpty = false := by
  obtain ⟨rest, hr⟩ := paramsToString_shape p ps
  rw [hr]
  exact isEmpty_append_cons _ _ _

theorem splitFirstEq_seg (l : List Char) :
    splitFirstEq ('s' :: '=' :: l) = (['s'], l) := by
  rw [splitFirstEq, if_neg (by decide), splitFirstEq, if_pos rfl]

/-- `get(\x27s\x27)` on the parsed form of a serialized parameter list whose
first entry has key `s`: the raw first value decodes back out, no matter
what follows. -/
theorem parseQuery_params_s (v : String) (ps : List (String × String)) :
    searchGet (parseQuery (paramsToString (("s", v) :: ps))) "s" =
      some ⟨formDecode (formEncode v)⟩ := by
  have hseg1 : formEncode "s" ++ '=' :: formEncode v = 's' :: '=' :: formEncode v := rfl
  have hnomem : '&' ∉ 's' :: '=' :: formEncode v := by
    intro hm
    rcases List.mem_cons.mp hm with h | h
    · exact absurd h (by decide)
    · rcases List.mem_cons.mp h with h | h
      · exact absurd h (by decide)
      · exact absurd h (formEncode_plain v).1
  cases ps with
  | nil =>
    rw [show paramsToString [("s", v)] = 's' :: '=' :: formEncode v from rfl]
    rw [parseQuery, splitCh_of_not_mem '&' _ hnomem]
    rw [show (['s' :: '=' :: formEncode v] : List (List Char)).filterMap
        (fun seg => if seg.isEmpty then none
          else some ((⟨formDecode (splitFirstEq seg).1⟩ : String),
            (⟨formDecode (splitFirstEq seg).2⟩ : String))) =
      [((⟨formDecode ['s']⟩ : String), (⟨formDecode (formEncode v)⟩ : String))] by
        simp [splitFirstEq_seg]]
    rfl
  | cons q qs =>
    rw [paramsToString, List.map_cons, List.map_cons,
      show ∀ a b (l : List (List Char)), joinSep '&' (a :: b :: l) =
        a ++ '&' :: joinSep '&' (b :: l) from fun a b l => rfl, hseg1]
    rw [parseQuery, splitCh_append '&' _ _ hnomem]
    rw [List.filterMap_cons]
    rw [show (('s' :: '=' :: formEncode v).isEmpty) = false from rfl]
    simp only [Bool.false_eq_true, if_false, splitFirstEq_seg]
    rw [searchGet, List.find?_cons]
    rfl

theorem url_assemble (sfx qs : List Char) (h : qs.isEmpty = false) :
    ("wemush://v1/" ++ (⟨sfx⟩ : String) ++
      (if qs.isEmpty then "" else "?" ++ (⟨qs⟩ : String))) =
    ⟨"wemush://".data ++ ("v1".data ++ '/' :: sfx ++ '?' :: qs)⟩ := by
  rw [h]
  simp only [Bool.false_eq_true, if_false]
  apply String.ext
  simp only [String.data_append]
  simp [List.append_assoc]

/-- The compact URL of any specimen has the canonical
`wemush://v1/<suffix>?<query>` shape, the query never contains `?`, and
its first parameter is `s` carrying the species code (or the species name
when no code is registered). -/
theorem toCompactUrl_shape (s : Specimen) :
    ∃ qs : List Char,
      toCompactUrl s = ⟨"wemush://".data ++ ("v1".data ++ '/' ::
          stripIdScheme (jStrOf s.id).data ++ '?' :: qs)⟩ ∧
      '?' ∉ qs ∧
      searchGet (parseQuery qs) "s" =
        some ⟨formDecode (formEncode
          (match getCodeFromSpecies (jStrOf s.species) with
           | some code => code
           | none => jStrOf s.species))⟩ := by
  simp only [toCompactUrl]
  rcases s.stage with _ | st <;> rcases s.created with _ | cr <;>
    rcases s.batch with _ | b <;>
    rcases hsn : s.strain.bind (fun st => jProp st "name") with _ | sn <;>
    rcases hsg : s.strain.bind (fun st => jProp st "generation") with _ | sg <;>
    exact ⟨_, url_assemble _ _ (paramsToString_ne_empty _ _),
      paramsToString_no_qmark _, parseQuery_params_s _ _⟩

theorem splitCh_head_shape (sep : Char) (l : List Char) (hne : l ≠ [])
    (hh : l.head? ≠ some sep) :
    ∃ g gs, splitCh sep l = g :: gs ∧ g ≠ [] := by
  rcases l with _ | ⟨c, cs⟩
  · exact absurd rfl hne
  have hcs : ¬(c = sep) := by simpa using hh
  rw [splitCh, if_neg hcs]
  rcases h : splitCh sep cs with _ | ⟨g, gs⟩
  · exact ⟨[c], [], rfl, by simp⟩
  · exact ⟨c :: g, gs, rfl, by simp⟩

/-- What `parseCompactUrl` computes on `wemush://{ver}/{id}?{query}` when
the id may itself contain `/`: the id segment the parser keeps is the part
of `id` up to its first `/`, which is non-empty as long as `id` is
non-empty and does not begin with `/`; the outcome is then decided by the
`s` query parameter exactly as in the slash-free case. -/
theorem parseCompactUrl_parts_slash (ver id query : List Char)
    (hv1 : '?' ∉ ver) (hv2 : '/' ∉ ver)
    (hi1 : '?' ∉ id) (hne : id ≠ []) (hh : id.head? ≠ some '/')
    (hq : '?' ∉ query) :
    ∃ seg1 : List Char, seg1 ≠ [] ∧
    parseCompactUrl ⟨"wemush://".data ++ (ver ++ '/' :: id ++ '?' :: query)⟩ =
      (match searchGet (parseQuery query) "s" with
       | none => .error "Invalid compact URL format: missing species parameter"
       | some sp =>
         .ok (SpecimenRef.mk ("wemush:" ++ (⟨seg1⟩ : String))
           ((getSpeciesFromCode sp).getD sp)
           (if ver = "v1".data then "1.1.0" else "1.0.0")
           (searchGet (parseQuery query) "ty")
           (searchGet (parseQuery query) "st")
           ((searchGet (parseQuery query) "t").map parseIntJs)
           (searchGet (parseQuery query) "b")
           (match searchGet (parseQuery query) "sn" with
            | none => none
            | some n => some ⟨n, searchGet (parseQuery query) "sg"⟩))) := by
  obtain ⟨g, gs, hsplit1, hgne⟩ := splitCh_head_shape '/' id hne hh
  refine ⟨g, hgne, ?_⟩
  rw [parseCompactUrl]
  rw [show (⟨"wemush://".data ++ (ver ++ '/' :: id ++ '?' :: query)⟩ : String).data =
    "wemush://".data ++ (ver ++ '/' :: id ++ '?' :: query) from rfl]
  rw [strStarts_append]
  simp only [Bool.not_true, Bool.false_eq_true, if_false]
  rw [show (9 : Nat) = "wemush://".data.length from rfl, List.drop_left]
  have hsplit : splitCh '?' (ver ++ '/' :: id ++ '?' :: query) =
      (ver ++ '/' :: id) :: splitCh '?' query := by
    rw [show ver ++ '/' :: id ++ '?' :: query = (ver ++ '/' :: id) ++ '?' :: query by
      simp [List.append_assoc]]
    refine splitCh_append '?' (ver ++ '/' :: id) query ?_
    intro hm
    rcases List.mem_append.mp hm with h | h
    · exact hv1 h
    · rcases List.mem_cons.mp h with h | h
      · exact absurd h.symm (by decide)
      · exact hi1 h
  rw [hsplit, splitCh_of_not_mem '?' query hq]
  dsimp only [List.headD, List.get?]
  rw [isEmpty_append_cons]
  simp only [Bool.false_eq_true, if_false]
  rw [splitCh_append '/' ver id hv2, hsplit1]
  dsimp only [List.get?]
  rcases g with _ | ⟨c, cs⟩
  · exact absurd rfl hgne
  rfl

/-- The built-in species table: codes decode through the form codec
unchanged, and each code resolves back to its species. -/
theorem species_table_facts :
    ∀ p ∈ SPECIES_CODES, (⟨formDecode (formEncode p.1)⟩ : String) = p.1 ∧
      getSpeciesFromCode p.1 = some p.2 := by decide

theorem getCode_mem {sp code : String} (h : getCodeFromSpecies sp = some code) :
    (code, sp) ∈ SPECIES_CODES := by
  rw [getCodeFromSpecies] at h
  rcases hf : SPECIES_CODES.find? (fun p => p.2 = sp) with _ | p
  · rw [hf] at h
    simp at h
  · rw [hf] at h
    simp only [Option.map_some', Option.some.injEq] at h
    have hmem := List.mem_of_find?_eq_some hf
    have hpred := List.find?_some hf
    simp only [decide_eq_true_eq] at hpred
    obtain ⟨p1, p2⟩ := p
    simp only at h hpred
    subst h
    subst hpred
    exact hmem

/-- C7 (corrected): for every Specimen whose species is registered in the
species-code table — and whose id suffix is non-empty, does not begin with
`/`, and contains no `?`, as every generated id satisfies — the
compact-URL round trip succeeds and recovers the species exactly (slashes
later in the suffix are fine: they only shorten the decoded id, never the
species); and for every URL whose `s` query value is not a registered
code, the decoded species is that raw value passed through unchanged. -/
theorem compactUrl_species_roundtrip :
    (∀ (s : Specimen) (idStr sp code : String),
      s.id = .str idStr → s.species = .str sp →
      getCodeFromSpecies sp = some code →
      stripIdScheme idStr.data ≠ [] →
      (stripIdScheme idStr.data).head? ≠ some '/' →
      '?' ∉ stripIdScheme idStr.data →
      ∃ r, parseCompactUrl (toCompactUrl s) = .ok r ∧ r.species = sp) ∧
    (∀ (ver id query : List Char) (sp : String),
      '?' ∉ ver → '/' ∉ ver → '?' ∉ id → id ≠ [] → id.head? ≠ some '/' →
      '?' ∉ query →
      searchGet (parseQuery query) "s" = some sp →
      getSpeciesFromCode sp = none →
      ∃ r, parseCompactUrl ⟨"wemush://".data ++ (ver ++ '/' :: id ++ '?' :: query)⟩ =
        .ok r ∧ r.species = sp) := by
  constructor
  · intro s idStr sp code hid hsp hcode hne hhead hq
    obtain ⟨qs, hurl, hqq, hs⟩ := toCompactUrl_shape s
    rw [hsp, show jStrOf (Json.str sp) = sp from rfl, hcode] at hs
    have htab := species_table_facts (code, sp) (getCode_mem hcode)
    rw [hurl, hid, show jStrOf (Json.str idStr) = idStr from rfl]
    obtain ⟨seg1, -, hchar⟩ := parseCompactUrl_parts_slash "v1".data
      (stripIdScheme idStr.data) qs (by decide) (by decide) hq hne hhead hqq
    rw [hchar, hs]
    dsimp only
    rw [htab.1, htab.2]
    exact ⟨_, rfl, rfl⟩
  · intro ver id query sp h1 h2 h3 h4 h5 h6 hs hnone
    obtain ⟨seg1, -, hchar⟩ := parseCompactUrl_parts_slash ver id query h1 h2 h3 h4 h5 h6
    rw [hchar, hs]
    dsimp only
    rw [hnone]
    exact ⟨_, rfl, rfl⟩

/-- Witness for C7 on a concrete specimen with a registered species, on one
whose id suffix contains a slash, and on a concrete URL carrying an
unregistered species value. -/
theorem compactUrl_species_roundtrip_witness :
    ((Specimen.mk (.str "wemush:abc1") (.str "1.2.0") (.str "CULTURE")
        (.str "Pleurotus ostreatus") none none none none none none none none
        none).id = Json.str "wemush:abc1" ∧
      getCodeFromSpecies "Pleurotus ostreatus" = some "POSTR" ∧
      stripIdScheme "wemush:abc1".data ≠ [] ∧
      (stripIdScheme "wemush:ab/cd".data).head? ≠ some '/' ∧
      searchGet (parseQuery "s=Unknown+fungus".data) "s" = some "Unknown fungus" ∧
      getSpeciesFromCode "Unknown fungus" = none) ∧
    (∃ r, parseCompactUrl (toCompactUrl (Specimen.mk (.str "wemush:abc1")
        (.str "1.2.0") (.str "CULTURE") (.str "Pleurotus ostreatus") none none
        none none none none none none none)) = .ok r ∧
      r.species = "Pleurotus ostreatus") ∧
    (∃ r, parseCompactUrl (toCompactUrl (Specimen.mk (.str "wemush:ab/cd")
        (.str "1.2.0") (.str "CULTURE") (.str "Pleurotus ostreatus") none none
        none none none none none none none)) = .ok r ∧
      r.species = "Pleurotus ostreatus") ∧
    (∃ r, parseCompactUrl ⟨"wemush://".data ++ (['v', '1'] ++ '/' :: ['x'] ++
        '?' :: "s=Unknown+fungus".data)⟩ = .ok r ∧ r.species = "Unknown fungus") := by
  refine ⟨⟨rfl, by decide, by decide, by decide, by decide, by decide⟩, ?_, ?_, ?_⟩
  · exact compactUrl_species_roundtrip.1 _ "wemush:abc1" "Pleurotus ostreatus"
      "POSTR" rfl rfl (by decide) (by decide) (by decide) (by decide)
  · exact compactUrl_species_roundtrip.1 _ "wemush:ab/cd" "Pleurotus ostreatus"
      "POSTR" rfl rfl (by decide) (by decide) (by decide) (by decide)
  · exact compactUrl_species_roundtrip.2 ['v', '1'] ['x'] "s=Unknown+fungus".data
      "Unknown fungus" (by decide) (by decide) (by decide) (by simp)
      (by decide) (by decide) (by decide) (by decide)

/-- Counterexample to C7 as written: a specimen with a registered species
but an empty id suffix fails the round trip with a missing-specimen-ID
error, so registration of the species alone does not guarantee success. -/
theorem compactUrl_empty_suffix_fails :
    parseCompactUrl (toCompactUrl (Specimen.mk (.str "wemush:") (.str "1.2.0")
      (.str "CULTURE") (.str "Pleurotus ostreatus") none none none none none
      none none none none)) =
    .error "Invalid compact URL format: missing specimen ID" := rfl

end Wols
